import Mathlib

/-!
Verification of the hoard caching package (stretchr/hoard).

The Go sources are embedded shallowly:

* `time.Time` and `time.Duration` become mathematical integers (nanoseconds);
  the Go zero time is `0`, so `t.IsZero()` is `t = 0`, `t.After(u)` is `t > u`,
  `t.Sub(u)` is `t - u` and `t.Add(d)` is `t + d`.
* A `*Expiration` pointer becomes `Option Nat`: `none` is the Go `nil`
  (which is also the `ExpiresDefault` sentinel), `some a` is a pointer to
  address `a` in an explicit heap `Nat → ExpData`.  The global
  `ExpiresNever = &Expiration{}` object lives at the fixed address `neverAddr`.
* The nilable `condition func() bool` field becomes `Option Bool`: `none` is a
  nil function, `some b` is a function that returns `b` (the sources treat the
  condition as a pure predicate re-evaluated on every check).
* Go maps become association lists with first-match lookup; map assignment
  replaces any previous binding, deletion filters the key out.
* The concurrent code is modelled sequentially: each entry point takes the
  instant `now` at which it runs (Go reads `time.Now()` several times in close
  succession inside one call; the model uses a single instant per call), the
  mutex operations are no-ops of the sequential semantics, and each operation
  additionally reports how many times it invoked the caller-supplied producer.
* `Get`/`GetWithError` on a `Hoard` instance call the bare `Remove(key)`
  (hoard.go:258,310,358,408), which is the package-level function of
  shared_hoard.go acting on the shared hoard, not the method of the receiver.
  The model therefore carries a world holding both the shared hoard and one
  further instance, and the stale-entry removal always targets the shared one,
  exactly as in the source.
-/

namespace Hoard

/-- expiration.go: `struct Expiration`.  A sub-condition is "set" when the
field differs from its zero value (`0` for `idle`/`duration`/`date`,
non-nil for `condition`). -/
structure ExpData where
  idle : Int
  duration : Int
  date : Int
  absolute : Int
  condition : Option Bool
deriving DecidableEq

/-- `Expiration{}` / `Expires()`: the all-unset policy data. -/
def emptyExp : ExpData := ⟨0, 0, 0, 0, none⟩

/-- The Go test `e.condition != nil && e.condition()`. -/
def condExpired : Option Bool → Bool
  | none => false
  | some b => b

/-- expiration.go:80-96, `Expiration.IsExpired`.  The Go function reads
`time.Now()` itself; here the instant is the explicit argument `now`. -/
def IsExpired (e : ExpData) (lastAccess created now : Int) : Bool :=
  if e.duration ≠ 0 ∧ now - created > e.duration then true
  else if e.idle ≠ 0 ∧ now - lastAccess > e.idle then true
  else if e.date ≠ 0 ∧ now > e.date then true
  else if condExpired e.condition then true
  else false

/-- expiration.go:49-63, `Expiration.updateAbsoluteTime`: set `absolute` to the
earliest point in time resulting from `idle`, `duration` or `date`. -/
def updateAbsoluteTime (e : ExpData) (lastAccess created : Int) : ExpData :=
  let abs0 := e.date
  let abs1 :=
    if e.idle ≠ 0 then
      let t := lastAccess + e.idle
      if t < abs0 ∨ abs0 = 0 then t else abs0
    else abs0
  let abs2 :=
    if e.duration ≠ 0 then
      let t := created + e.duration
      if t < abs1 ∨ abs1 = 0 then t else abs1
    else abs1
  { e with absolute := abs2 }

/-- expiration.go:67-76, `Expiration.isExpiredAbsolute`: the sweeper's quick
check against the cached `absolute` field. -/
def isExpiredAbsolute (e : ExpData) (currentTime : Int) : Bool :=
  if e.absolute ≠ 0 ∧ currentTime > e.absolute then true
  else if condExpired e.condition then true
  else false

/-! ### Pointers, heap, containers and hoard state -/

/-- A nilable `*Expiration`: `none` is Go `nil` (the `ExpiresDefault`
sentinel, expiration.go:16), `some a` points at heap address `a`. -/
abbrev ExpRef := Option Nat

/-- The address of the global `ExpiresNever = &Expiration{}` object
(expiration.go:12). -/
def neverAddr : Nat := 0

/-- expiration.go:12: `ExpiresNever`, a pointer to one fixed object. -/
def ExpiresNever : ExpRef := some neverAddr

/-- expiration.go:16: `ExpiresDefault = nil`. -/
def ExpiresDefault : ExpRef := none

/-- The heap of `Expiration` objects, addressed by `Nat`. -/
abbrev Heap := Nat → ExpData

/-- Pointer write: mutate the object at address `a`. -/
def heapUpdate (hp : Heap) (a : Nat) (d : ExpData) : Heap :=
  fun x => if x = a then d else hp x

/-- hoard.go:9-22: `container`, the cached data with its metadata. -/
structure Container (α : Type) where
  data : α
  accessed : Int
  created : Int
  expiration : ExpRef
deriving DecidableEq

/-- hoard.go:25-35: `expirationContainer`, metadata only. -/
structure ExpirationContainer where
  accessed : Int
  created : Int
  expiration : ExpRef
deriving DecidableEq

/-- hoard.go:38-44: `cloneExpirationContainer`. -/
def cloneExpirationContainer {α : Type} (c : Container α) : ExpirationContainer :=
  ⟨c.accessed, c.created, c.expiration⟩

/-- A Go `map[string]β` as an association list with first-match lookup. -/
abbrev SMap (β : Type) := List (String × β)

/-- Map read `m[k]`. -/
def mapGet {β : Type} (m : SMap β) (k : String) : Option β :=
  (m.find? (fun p => p.1 == k)).map Prod.snd

/-- Map deletion `delete(m, k)`. -/
def mapErase {β : Type} (m : SMap β) (k : String) : SMap β :=
  m.filter (fun p => p.1 != k)

/-- Map assignment `m[k] = v` (replaces any previous binding for `k`). -/
def mapSet {β : Type} (m : SMap β) (k : String) (v : β) : SMap β :=
  (k, v) :: mapErase m k

/-- hoard.go:53-88: the mutable per-instance state of a `Hoard`.  The mutexes
and the key-deadbolt table carry no sequential state; the ticker object is
represented by its running flag; the check interval plays no role in the
claims and is omitted. -/
structure HoardState (α : Type) where
  cache : SMap (Container α)
  expirationCache : SMap ExpirationContainer
  defaultExpiration : ExpRef
  tickerRunning : Bool
deriving DecidableEq

/-- hoard.go:206-218: `Make` (without the interval field, see above). -/
def MakeH (α : Type) (defaultExpiration : ExpRef) : HoardState α :=
  { cache := [], expirationCache := [], defaultExpiration := defaultExpiration,
    tickerRunning := false }

/-- Which hoard a call acts on: the process-wide shared hoard of
shared_hoard.go, or one further independent instance. -/
inductive HRef where
  | shared
  | inst
deriving DecidableEq

/-- The world: the shared hoard, one instance, and the heap of `Expiration`
objects (shared between both, since policies are passed by pointer). -/
structure World (α : Type) where
  shared : HoardState α
  inst : HoardState α
  heap : Heap

/-- Dereference a hoard. -/
def World.hoardAt {α : Type} (w : World α) : HRef → HoardState α
  | .shared => w.shared
  | .inst => w.inst

/-- Replace a hoard. -/
def World.setHoard {α : Type} (w : World α) : HRef → HoardState α → World α
  | .shared, h => { w with shared := h }
  | .inst, h => { w with inst := h }

/-! ### The primitive operations of hoard.go -/

/-- hoard.go:147-152: `cacheGet`. -/
def cacheGet {α : Type} (w : World α) (r : HRef) (key : String) : Option (Container α) :=
  mapGet (w.hoardAt r).cache key

/-- hoard.go:155-160: `cacheSet`. -/
def cacheSet {α : Type} (w : World α) (r : HRef) (key : String) (c : Container α) : World α :=
  w.setHoard r { w.hoardAt r with cache := mapSet (w.hoardAt r).cache key c }

/-- hoard.go:140-144: `expireInternal`. -/
def expireInternal {α : Type} (w : World α) (r : HRef) (key : String) : World α :=
  w.setHoard r
    { w.hoardAt r with expirationCache := mapErase (w.hoardAt r).expirationCache key }

/-- hoard.go:163-176: `expirationCacheSet`.  The clone keeps the same
`*Expiration` pointer, and `updateAbsoluteTime` mutates the pointed-to object
in place, so the heap is updated at that address.  Go dereferences the pointer
unconditionally (a nil pointer would panic); every call site guards against
nil, and the unreachable nil case is modelled as a no-op. -/
def expirationCacheSet {α : Type} (w : World α) (r : HRef) (key : String)
    (object : Container α) : World α :=
  match object.expiration with
  | some a =>
      let w1 : World α :=
        { w with heap :=
            heapUpdate w.heap a (updateAbsoluteTime (w.heap a) object.accessed object.created) }
      w1.setHoard r
        { w1.hoardAt r with
          expirationCache :=
            mapSet (w1.hoardAt r).expirationCache key (cloneExpirationContainer object) }
  | none => w

/-- hoard.go:92-137: `startFlushManager`, reduced to its sequential effect on
the ticker flag (the sweep the started goroutine performs on each tick is
modelled separately by `sweepCheck` / `flushTick`). -/
def startFlushManager {α : Type} (w : World α) (r : HRef) : World α :=
  if (w.hoardAt r).tickerRunning then w
  else w.setHoard r { w.hoardAt r with tickerRunning := true }

/-- hoard.go:473-478: the `Remove` method of a hoard. -/
def RemoveOp {α : Type} (w : World α) (r : HRef) (key : String) : World α :=
  expireInternal
    (w.setHoard r { w.hoardAt r with cache := mapErase (w.hoardAt r).cache key })
    r key

/-- shared_hoard.go:43-45: the package-level `Remove`, which always acts on
the shared hoard.  This is the function `Get`/`GetWithError` call on a stale
entry. -/
def sharedRemove {α : Type} (w : World α) (key : String) : World α :=
  RemoveOp w .shared key

/-- The staleness test hoard.go:256-261 applies to a found container:
nil policies are never checked, others use the full `IsExpired`. -/
def entryExpired {α : Type} (w : World α) (c : Container α) (now : Int) : Bool :=
  match c.expiration with
  | some a => IsExpired (w.heap a) c.accessed c.created now
  | none => false

/-- hoard.go:446-462: `Set`.  The variadic expiration argument is an
`Option`: `none` means the argument was omitted. -/
def SetOp {α : Type} (w : World α) (r : HRef) (key : String) (object : α)
    (expiration : Option ExpRef) (now : Int) : World α :=
  let exp : ExpRef :=
    match expiration with
    | none => (w.hoardAt r).defaultExpiration
    | some e => e
  let containerObject : Container α := ⟨object, now, now, exp⟩
  let w1 := cacheSet w r key containerObject
  if exp ≠ none ∧ exp ≠ ExpiresNever then
    startFlushManager (expirationCacheSet w1 r key containerObject) r
  else w1

/-- hoard.go:465-470: `Has`. -/
def HasOp {α : Type} (w : World α) (r : HRef) (key : String) : Bool :=
  (cacheGet w r key).isSome

/-- hoard.go:482-507: `SetExpires` (it reads no clock: the stored timestamps
are reused). -/
def SetExpires {α : Type} (w : World α) (r : HRef) (key : String)
    (expiration : ExpRef) : Bool × World α :=
  match cacheGet w r key with
  | none => (false, w)
  | some object =>
      let expiration := if expiration = ExpiresDefault then (w.hoardAt r).defaultExpiration
                        else expiration
      let object := { object with expiration := expiration }
      let w1 := cacheSet w r key object
      let w2 :=
        if expiration = ExpiresNever ∨ expiration = none then expireInternal w1 r key
        else expirationCacheSet w1 r key object
      (true, w2)

/-! ### Get and GetWithError

The double-checked protocol of hoard.go:248-339/348-440, sequentially: the
fast read, the staleness check (whose removal is the package-level `Remove`
acting on the shared hoard), the re-check under the key deadbolt, and the
producer invocation.  Each function also returns the number of producer
invocations it performed. -/

/-- The miss branch hoard.go:316-331: invoke the producer (if any),
substitute the default policy for a returned `ExpiresDefault`, and store. -/
def getMiss {α : Type} (w : World α) (r : HRef) (key : String)
    (dataGetter : Option (α × ExpRef)) (now : Int) : Option α × World α × Nat :=
  match dataGetter with
  | none => (none, w, 0)
  | some (data, expiration) =>
      let expiration := if expiration = ExpiresDefault then (w.hoardAt r).defaultExpiration
                        else expiration
      (some data, SetOp w r key data (some expiration) now, 1)

/-- The re-check under the key lock, hoard.go:305-314 and 333-335. -/
def getSlow {α : Type} (w : World α) (r : HRef) (key : String)
    (dataGetter : Option (α × ExpRef)) (now : Int) : Option α × World α × Nat :=
  match cacheGet w r key with
  | some object =>
      if entryExpired w object now then getMiss (sharedRemove w key) r key dataGetter now
      else (some object.data, w, 0)
  | none => getMiss w r key dataGetter now

/-- The short circuit for quick retrieval, hoard.go:264-275 (and 364-374):
update the access time, write back, and refresh the expirable index when the
policy is non-nil and not the `ExpiresNever` sentinel. -/
def getFastWorld {α : Type} (w : World α) (r : HRef) (key : String)
    (object : Container α) (now : Int) : World α :=
  let object := { object with accessed := now }
  let w1 := cacheSet w r key object
  if object.expiration ≠ none ∧ object.expiration ≠ ExpiresNever then
    expirationCacheSet w1 r key object
  else w1

/-- hoard.go:248-339: `Get`. -/
def Get {α : Type} (w : World α) (r : HRef) (key : String)
    (dataGetter : Option (α × ExpRef)) (now : Int) : Option α × World α × Nat :=
  match cacheGet w r key with
  | none => getSlow w r key dataGetter now
  | some object =>
      if entryExpired w object now then
        getSlow (sharedRemove w key) r key dataGetter now
      else
        (some object.data, getFastWorld w r key object now, 0)

/-- The miss branch hoard.go:414-432: a producer error short-circuits before
anything is stored. -/
def getWithErrorMiss {α ε : Type} (w : World α) (r : HRef) (key : String)
    (dataGetter : Option (α × Option ε × ExpRef)) (now : Int) :
    (Option α × Option ε) × World α × Nat :=
  match dataGetter with
  | none => ((none, none), w, 0)
  | some (data, err, expiration) =>
      match err with
      | some e => ((some data, some e), w, 1)
      | none =>
          let expiration := if expiration = ExpiresDefault then (w.hoardAt r).defaultExpiration
                            else expiration
          ((some data, none), SetOp w r key data (some expiration) now, 1)

/-- The re-check of hoard.go:403-412 and 434-436. -/
def getWithErrorSlow {α ε : Type} (w : World α) (r : HRef) (key : String)
    (dataGetter : Option (α × Option ε × ExpRef)) (now : Int) :
    (Option α × Option ε) × World α × Nat :=
  match cacheGet w r key with
  | some object =>
      if entryExpired w object now then
        getWithErrorMiss (sharedRemove w key) r key dataGetter now
      else ((some object.data, none), w, 0)
  | none => getWithErrorMiss w r key dataGetter now

/-- hoard.go:348-440: `GetWithError`. -/
def GetWithError {α ε : Type} (w : World α) (r : HRef) (key : String)
    (dataGetter : Option (α × Option ε × ExpRef)) (now : Int) :
    (Option α × Option ε) × World α × Nat :=
  match cacheGet w r key with
  | none => getWithErrorSlow w r key dataGetter now
  | some object =>
      if entryExpired w object now then
        getWithErrorSlow (sharedRemove w key) r key dataGetter now
      else
        ((some object.data, none), getFastWorld w r key object now, 0)

/-! ### The sweeper -/

/-- The per-key staleness test the flush goroutine applies on a tick
(hoard.go:107-114): entries with a nil policy are skipped, the others use the
quick `isExpiredAbsolute` check on the pointed-to policy object. -/
def sweepCheck {α : Type} (w : World α) (r : HRef) (key : String) (now : Int) : Bool :=
  match mapGet (w.hoardAt r).expirationCache key with
  | some ec =>
      match ec.expiration with
      | some a => isExpiredAbsolute (w.heap a) now
      | none => false
  | none => false

/-- One full tick of the flush goroutine (hoard.go:100-133): if the expirable
index is non-empty, delete every stale key from both maps; otherwise stop the
ticker. -/
def flushTick {α : Type} (w : World α) (r : HRef) (now : Int) : World α :=
  if (w.hoardAt r).expirationCache ≠ [] then
    let expirations :=
      (((w.hoardAt r).expirationCache.filter fun p =>
        match p.2.expiration with
        | some a => isExpiredAbsolute (w.heap a) now
        | none => false)).map Prod.fst
    w.setHoard r
      { w.hoardAt r with
        cache := expirations.foldl (fun m k => mapErase m k) (w.hoardAt r).cache,
        expirationCache :=
          expirations.foldl (fun m k => mapErase m k) (w.hoardAt r).expirationCache }
  else
    w.setHoard r { w.hoardAt r with tickerRunning := false }

/-! ### Public operations as one transition type -/

/-- One public operation of the engine, with its arguments. -/
inductive POp (α ε : Type) where
  | get (r : HRef) (key : String) (g : Option (α × ExpRef)) (now : Int)
  | getWithError (r : HRef) (key : String) (g : Option (α × Option ε × ExpRef)) (now : Int)
  | set (r : HRef) (key : String) (v : α) (e : Option ExpRef) (now : Int)
  | remove (r : HRef) (key : String)
  | has (r : HRef) (key : String)
  | setExpires (r : HRef) (key : String) (e : ExpRef)

/-- The state change a public operation performs. -/
def applyOp {α ε : Type} (w : World α) : POp α ε → World α
  | .get r key g now => (Get w r key g now).2.1
  | .getWithError r key g now => (GetWithError w r key g now).2.1
  | .set r key v e now => SetOp w r key v e now
  | .remove r key => RemoveOp w r key
  | .has _ _ => w
  | .setExpires r key e => (SetExpires w r key e).2

/-- Whether the operation is a `SetExpires`. -/
def POp.isSetExpires {α ε : Type} : POp α ε → Bool
  | .setExpires _ _ _ => true
  | _ => false

/-! ### Invariants -/

/-- C6: no binding of an expirable index carries the `ExpiresNever` sentinel
or a nil policy. -/
def noNeverList (m : SMap ExpirationContainer) : Prop :=
  ∀ p ∈ m, p.2.expiration ≠ ExpiresNever ∧ p.2.expiration ≠ none

/-- C6 invariant over the whole world. -/
def IndexNoNever {α : Type} (w : World α) : Prop :=
  noNeverList w.shared.expirationCache ∧ noNeverList w.inst.expirationCache

instance instDecidableNoNeverList (m : SMap ExpirationContainer) :
    Decidable (noNeverList m) :=
  inferInstanceAs
    (Decidable (∀ p ∈ m, p.2.expiration ≠ ExpiresNever ∧ p.2.expiration ≠ none))

instance instDecidableIndexNoNever {α : Type} (w : World α) :
    Decidable (IndexNoNever w) :=
  inferInstanceAs (Decidable (noNeverList w.shared.expirationCache ∧
    noNeverList w.inst.expirationCache))

/-- C8: a non-empty expirable index implies a running ticker. -/
def tickerOk {α : Type} (h : HoardState α) : Prop :=
  h.expirationCache ≠ [] → h.tickerRunning = true

/-- C8 strengthening that makes `tickerOk` inductive: every cache entry whose
policy is non-nil and not the `ExpiresNever` sentinel also appears in the
expirable index. -/
def expirableIndexed {α : Type} (h : HoardState α) : Prop :=
  ∀ p ∈ h.cache, (p.2.expiration ≠ none ∧ p.2.expiration ≠ ExpiresNever) →
    (mapGet h.expirationCache p.1).isSome = true

/-- C8 per-hoard invariant. -/
def hoardOk {α : Type} (h : HoardState α) : Prop :=
  tickerOk h ∧ expirableIndexed h

/-- C8 invariant over the whole world. -/
def SweepInv {α : Type} (w : World α) : Prop :=
  hoardOk w.shared ∧ hoardOk w.inst

instance instDecidableTickerOk {α : Type} (h : HoardState α) : Decidable (tickerOk h) :=
  inferInstanceAs (Decidable (h.expirationCache ≠ [] → h.tickerRunning = true))

instance instDecidableExpirableIndexed {α : Type} [DecidableEq α] (h : HoardState α) :
    Decidable (expirableIndexed h) :=
  inferInstanceAs (Decidable (∀ p ∈ h.cache,
    (p.2.expiration ≠ none ∧ p.2.expiration ≠ ExpiresNever) →
      (mapGet h.expirationCache p.1).isSome = true))

instance instDecidableHoardOk {α : Type} [DecidableEq α] (h : HoardState α) :
    Decidable (hoardOk h) :=
  inferInstanceAs (Decidable (tickerOk h ∧ expirableIndexed h))

instance instDecidableSweepInv {α : Type} [DecidableEq α] (w : World α) :
    Decidable (SweepInv w) :=
  inferInstanceAs (Decidable (hoardOk w.shared ∧ hoardOk w.inst))

/-- C2 helper: the four sub-conditions of the spec, as one proposition. -/
def subConditionHolds (e : ExpData) (lastAccess created now : Int) : Prop :=
  (e.duration ≠ 0 ∧ now - created > e.duration) ∨
  (e.idle ≠ 0 ∧ now - lastAccess > e.idle) ∨
  (e.date ≠ 0 ∧ now > e.date) ∨
  e.condition = some true

/-! ### Helper lemmas: maps, world accessors, policy evaluation -/

@[simp]
theorem mapGet_nil {β : Type} (k : String) : mapGet ([] : SMap β) k = none := rfl

theorem mapGet_cons {β : Type} (p : String × β) (t : SMap β) (k : String) :
    mapGet (p :: t) k = if p.1 = k then some p.2 else mapGet t k := by
  unfold mapGet
  by_cases h : p.1 = k
  · rw [List.find?_cons_of_pos _ (by simpa using h)]
    simp [h]
  · rw [List.find?_cons_of_neg _ (by simpa using h)]
    simp [h]

theorem mapGet_mapErase {β : Type} (m : SMap β) (k k' : String) :
    mapGet (mapErase m k) k' = if k' = k then none else mapGet m k' := by
  induction m with
  | nil => simp [mapErase]
  | cons p t ih =>
      by_cases hpk : p.1 = k
      · have : mapErase (p :: t) k = mapErase t k := by
          simp [mapErase, List.filter_cons, hpk]
        rw [this, ih, mapGet_cons]
        by_cases h : k' = k
        · simp [h]
        · have : ¬ p.1 = k' := by rw [hpk]; exact fun hh => h hh.symm
          simp [h, this]
      · have : mapErase (p :: t) k = p :: mapErase t k := by
          simp [mapErase, List.filter_cons, hpk]
        rw [this, mapGet_cons, mapGet_cons, ih]
        by_cases hq : p.1 = k'
        · have : ¬ k' = k := fun hh => hpk (hq.trans hh)
          simp [hq, this]
        · simp [hq]

theorem mapGet_mapSet {β : Type} (m : SMap β) (k k' : String) (v : β) :
    mapGet (mapSet m k v) k' = if k' = k then some v else mapGet m k' := by
  unfold mapSet
  rw [mapGet_cons, mapGet_mapErase]
  by_cases h : k' = k
  · simp [h]
  · have : ¬ k = k' := fun hh => h hh.symm
    simp [h, this]

theorem mem_mapErase {β : Type} {m : SMap β} {k : String} {p : String × β}
    (hp : p ∈ mapErase m k) : p ∈ m :=
  List.mem_of_mem_filter hp

theorem mem_mapSet {β : Type} {m : SMap β} {k : String} {v : β} {p : String × β}
    (hp : p ∈ mapSet m k v) : p = (k, v) ∨ p ∈ m := by
  rcases List.mem_cons.mp hp with h | h
  · exact Or.inl h
  · exact Or.inr (mem_mapErase h)

theorem mapGet_eq_some_mem {β : Type} {m : SMap β} {k : String} {v : β}
    (hg : mapGet m k = some v) : (k, v) ∈ m := by
  unfold mapGet at hg
  cases hf : m.find? (fun p => p.1 == k) with
  | none => rw [hf] at hg; simp at hg
  | some p =>
      rw [hf] at hg
      have hmem := List.mem_of_find?_eq_some hf
      have hk : p.1 = k := by simpa using List.find?_some hf
      have hv : p.2 = v := by simpa using hg
      obtain ⟨p1, p2⟩ := p
      cases hk
      cases hv
      exact hmem

theorem mapSet_ne_nil {β : Type} (m : SMap β) (k : String) (v : β) :
    mapSet m k v ≠ [] := by
  simp [mapSet]

theorem mapErase_eq_nil_of_nil {β : Type} {m : SMap β} {k : String}
    (h : m = []) : mapErase m k = [] := by
  simp [mapErase, h]

@[simp]
theorem hoardAt_setHoard_same {α : Type} (w : World α) (r : HRef) (h : HoardState α) :
    (w.setHoard r h).hoardAt r = h := by
  cases r <;> rfl

theorem hoardAt_setHoard_other {α : Type} (w : World α) {r r' : HRef} (h : HoardState α)
    (hne : r' ≠ r) : (w.setHoard r h).hoardAt r' = w.hoardAt r' := by
  cases r <;> cases r' <;> first | rfl | exact absurd rfl hne

@[simp]
theorem heap_setHoard {α : Type} (w : World α) (r : HRef) (h : HoardState α) :
    (w.setHoard r h).heap = w.heap := by
  cases r <;> rfl

@[simp]
theorem hoardAt_setHeap {α : Type} (w : World α) (hp : Heap) (r : HRef) :
    ({ w with heap := hp } : World α).hoardAt r = w.hoardAt r := by
  cases r <;> rfl

@[simp]
theorem heapUpdate_same (hp : Heap) (a : Nat) (d : ExpData) :
    heapUpdate hp a d a = d := by
  simp [heapUpdate]

theorem heapUpdate_other (hp : Heap) {a a' : Nat} (d : ExpData) (h : a' ≠ a) :
    heapUpdate hp a d a' = hp a' := by
  simp [heapUpdate, h]

/-- `updateAbsoluteTime` only rewrites the `absolute` field. -/
theorem updateAbsoluteTime_fields (e : ExpData) (la cr : Int) :
    (updateAbsoluteTime e la cr).idle = e.idle ∧
    (updateAbsoluteTime e la cr).duration = e.duration ∧
    (updateAbsoluteTime e la cr).date = e.date ∧
    (updateAbsoluteTime e la cr).condition = e.condition := by
  unfold updateAbsoluteTime
  exact ⟨rfl, rfl, rfl, rfl⟩

/-- `IsExpired` never reads the cached `absolute` field, so mutating it via
`updateAbsoluteTime` does not change the full evaluation. -/
theorem isExpired_updateAbsoluteTime (e : ExpData) (la cr x y z : Int) :
    IsExpired (updateAbsoluteTime e la cr) x y z = IsExpired e x y z := by
  unfold IsExpired updateAbsoluteTime
  rfl

/-- C2: `IsExpired` returns true iff at least one of the four set
sub-conditions holds at `now`; unset sub-conditions never contribute and
there is no precedence among them (the result is their plain logical OR). -/
theorem isExpired_iff_or_of_subconditions (e : ExpData) (lastAccess created now : Int) :
    IsExpired e lastAccess created now = true ↔ subConditionHolds e lastAccess created now := by
  unfold IsExpired subConditionHolds
  rcases hc : e.condition with _ | b <;>
    simp only [condExpired, hc] <;>
    split_ifs <;>
    simp_all

/-- C3 counterexample: on an engine whose default policy is the object at
address 1, `Set("k", 42, ExpiresDefault)` stores the `ExpiresDefault` (nil)
sentinel itself as the entry's policy, not the default: `Set` substitutes the
default only when the variadic argument is omitted (hoard.go:449-453). -/
theorem set_explicit_default_counterexample :
    (cacheGet (SetOp (⟨MakeH Int ExpiresNever, MakeH Int (some 1), fun _ => emptyExp⟩ :
        World Int) .inst "k" 42 (some ExpiresDefault) 0) .inst "k").map Container.expiration =
      some ExpiresDefault ∧
    (some 1 : ExpRef) ≠ ExpiresDefault := by
  decide

/-- C4, the code evaluated at the failing input: the instance hoard holds a
stale entry for "k" (duration 5, created 0, now 10) and the shared hoard
holds an unrelated fresh entry for "k".  `Get` on the instance calls the
package-level `Remove` of shared_hoard.go, so the key is deleted from the
shared hoard while the instance keeps its stale entry in both maps. -/
theorem get_stale_removes_from_shared :
    (cacheGet (⟨⟨[("k", ⟨7, 0, 0, ExpiresNever⟩)], [], ExpiresNever, false⟩,
        ⟨[("k", ⟨1, 0, 0, some 1⟩)], [("k", ⟨0, 0, some 1⟩)], ExpiresNever, true⟩,
        fun a => if a = 1 then ⟨0, 5, 0, 0, none⟩ else emptyExp⟩ : World Int)
      .shared "k" = some ⟨7, 0, 0, ExpiresNever⟩) ∧
    (Get (⟨⟨[("k", ⟨7, 0, 0, ExpiresNever⟩)], [], ExpiresNever, false⟩,
        ⟨[("k", ⟨1, 0, 0, some 1⟩)], [("k", ⟨0, 0, some 1⟩)], ExpiresNever, true⟩,
        fun a => if a = 1 then ⟨0, 5, 0, 0, none⟩ else emptyExp⟩ : World Int)
      .inst "k" none 10 |>.2.1 |> fun w1 =>
        cacheGet w1 .inst "k" = some ⟨1, 0, 0, some 1⟩ ∧
        mapGet w1.inst.expirationCache "k" = some ⟨0, 0, some 1⟩ ∧
        cacheGet w1 .shared "k" = none) := by
  decide

/-- C5 counterexample: a `GetWithError` call on the shared hoard that finds a
stale entry for the key and whose producer returns an error does change the
Entry Store: the stale entry is removed before the producer runs, so the maps
are not exactly as before the call. -/
theorem getWithError_stale_removed_counterexample :
    (cacheGet (⟨⟨[("k", ⟨1, 0, 0, some 1⟩)], [("k", ⟨0, 0, some 1⟩)], ExpiresNever, true⟩,
        MakeH Int ExpiresNever,
        fun a => if a = 1 then ⟨0, 5, 0, 0, none⟩ else emptyExp⟩ : World Int)
      .shared "k" = some ⟨1, 0, 0, some 1⟩) ∧
    (GetWithError (⟨⟨[("k", ⟨1, 0, 0, some 1⟩)], [("k", ⟨0, 0, some 1⟩)], ExpiresNever, true⟩,
        MakeH Int ExpiresNever,
        fun a => if a = 1 then ⟨0, 5, 0, 0, none⟩ else emptyExp⟩ : World Int)
      .shared "k" (some (9, some "boom", ExpiresNever)) 10 |> fun res =>
        res.1 = (some 9, some "boom") ∧
        res.2.2 = 1 ∧
        cacheGet res.2.1 .shared "k" = none) := by
  decide

/-- C7 counterexample: an entry whose `condition` sub-condition is unset (so
the condition alone does not report stale) but whose since-creation duration
has passed is not returned by `Get`'s fast path: the fast path evaluates the
full `IsExpired`, removes the entry and treats the lookup as a miss. -/
theorem fast_path_time_expiry_counterexample :
    ((fun a => if a = 1 then (⟨0, 5, 0, 0, none⟩ : ExpData) else emptyExp) 1).condition
        = none ∧
    (Get (⟨⟨[("k", ⟨1, 0, 0, some 1⟩)], [("k", ⟨0, 0, some 1⟩)], ExpiresNever, true⟩,
        MakeH Int ExpiresNever,
        fun a => if a = 1 then ⟨0, 5, 0, 0, none⟩ else emptyExp⟩ : World Int)
      .shared "k" none 10 |> fun res =>
        res.1 = none ∧
        cacheGet res.2.1 .shared "k" = none) := by
  decide

/-- C8 counterexample: `SetExpires` installs a non-Never policy (address 1,
duration 5) on a previously never-expiring entry while the sweeper is
stopped; afterwards the Expirable Index is non-empty but the ticker is not
running — `SetExpires` never calls `startFlushManager` (hoard.go:482-507). -/
theorem setExpires_no_sweeper_start_counterexample :
    (SetExpires (⟨MakeH Int ExpiresNever,
        ⟨[("k", ⟨1, 0, 0, ExpiresNever⟩)], [], ExpiresNever, false⟩,
        fun a => if a = 1 then ⟨0, 5, 0, 0, none⟩ else emptyExp⟩ : World Int)
      .inst "k" (some 1) |> fun res =>
        res.1 = true ∧
        res.2.inst.expirationCache ≠ [] ∧
        res.2.inst.tickerRunning = false) := by
  decide

/-- C9 counterexample: when a set sub-condition's deadline lands exactly on
the Go zero time, the cached `absolute` field conflates it with "unset".
Here `idle = 5` and `lastAccess = -5`, so the idle deadline is the zero time:
`isExpiredAbsolute` reports fresh while the full `IsExpired` reports stale at
`now = 3`. -/
theorem absolute_zero_deadline_counterexample :
    isExpiredAbsolute (updateAbsoluteTime ⟨5, 0, 0, 0, none⟩ (-5) 0) 3 = false ∧
    IsExpired ⟨5, 0, 0, 0, none⟩ (-5) 0 3 = true ∧
    IsExpired (updateAbsoluteTime ⟨5, 0, 0, 0, none⟩ (-5) 0) (-5) 0 3 = true := by
  decide

/-- The cached `absolute` field after `updateAbsoluteTime` classifies `now`
exactly like the disjunction of the three time sub-conditions, provided no
set sub-condition's deadline is exactly the zero time. -/
theorem updateAbsolute_time_part (e : ExpData) (la cr now : Int)
    (hidle : e.idle ≠ 0 → la + e.idle ≠ 0)
    (hdur : e.duration ≠ 0 → cr + e.duration ≠ 0) :
    (((updateAbsoluteTime e la cr).absolute ≠ 0 ∧
        now > (updateAbsoluteTime e la cr).absolute) ↔
      ((e.duration ≠ 0 ∧ now - cr > e.duration) ∨
       (e.idle ≠ 0 ∧ now - la > e.idle) ∨
       (e.date ≠ 0 ∧ now > e.date))) := by
  have hI : e.idle = 0 ∨ la + e.idle ≠ 0 := by
    by_cases h : e.idle = 0
    · exact Or.inl h
    · exact Or.inr (hidle h)
  have hD : e.duration = 0 ∨ cr + e.duration ≠ 0 := by
    by_cases h : e.duration = 0
    · exact Or.inl h
    · exact Or.inr (hdur h)
  simp only [updateAbsoluteTime]
  split_ifs <;> simp_all <;> omega

theorem ifor_congr {p q : Prop} [Decidable p] [Decidable q] (b : Bool) (h : p ↔ q) :
    (if p then true else if b then true else false) =
      (if q then true else if b then true else false) := by
  by_cases hb : p
  · rw [if_pos hb, if_pos (h.mp hb)]
  · rw [if_neg hb, if_neg (fun hq2 => hb (h.mpr hq2))]

/-- `IsExpired` with its three time checks flattened into one disjunction. -/
theorem isExpired_eq_flat (e : ExpData) (la cr now : Int) :
    IsExpired e la cr now =
      if (e.duration ≠ 0 ∧ now - cr > e.duration) ∨ (e.idle ≠ 0 ∧ now - la > e.idle) ∨
         (e.date ≠ 0 ∧ now > e.date) then true
      else if condExpired e.condition then true else false := by
  unfold IsExpired
  split_ifs <;> simp_all <;> omega

/-- C9 (amended): after `updateAbsoluteTime(lastAccess, created)`, the
sweeper's quick `isExpiredAbsolute(now)` agrees with the full `IsExpired`
evaluation at the same instant, provided no set time sub-condition's deadline
equals the zero time (the `absolute` field uses the zero time as its "unset"
marker, see the counterexample). -/
theorem absolute_matches_full_eval (e : ExpData) (la cr now : Int)
    (hidle : e.idle ≠ 0 → la + e.idle ≠ 0)
    (hdur : e.duration ≠ 0 → cr + e.duration ≠ 0) :
    isExpiredAbsolute (updateAbsoluteTime e la cr) now = IsExpired e la cr now := by
  have hts := updateAbsolute_time_part e la cr now hidle hdur
  have hshape : isExpiredAbsolute (updateAbsoluteTime e la cr) now =
      if ((updateAbsoluteTime e la cr).absolute ≠ 0 ∧
          now > (updateAbsoluteTime e la cr).absolute) then true
      else if condExpired e.condition then true else false := rfl
  rw [hshape, isExpired_eq_flat]
  exact ifor_congr (condExpired e.condition) hts

/-! ### C6: the expirable index never holds the Never sentinel or nil -/

theorem noNeverList_erase {m : SMap ExpirationContainer} {k : String}
    (h : noNeverList m) : noNeverList (mapErase m k) :=
  fun p hp => h p (mem_mapErase hp)

theorem noNeverList_set {m : SMap ExpirationContainer} {k : String}
    {ec : ExpirationContainer} (h : noNeverList m)
    (he : ec.expiration ≠ ExpiresNever ∧ ec.expiration ≠ none) :
    noNeverList (mapSet m k ec) := by
  intro p hp
  rcases mem_mapSet hp with heq | hmem
  · rw [heq]
    exact he
  · exact h p hmem

theorem indexNoNever_cacheSet {α : Type} {w : World α} {r : HRef} {key : String}
    {c : Container α} (h : IndexNoNever w) : IndexNoNever (cacheSet w r key c) := by
  cases r <;> exact h

theorem indexNoNever_expireInternal {α : Type} {w : World α} {r : HRef} {key : String}
    (h : IndexNoNever w) : IndexNoNever (expireInternal w r key) := by
  cases r
  · exact ⟨noNeverList_erase h.1, h.2⟩
  · exact ⟨h.1, noNeverList_erase h.2⟩

theorem indexNoNever_startFlushManager {α : Type} {w : World α} {r : HRef}
    (h : IndexNoNever w) : IndexNoNever (startFlushManager w r) := by
  unfold startFlushManager
  split
  · exact h
  · cases r <;> exact h

theorem indexNoNever_expirationCacheSet {α : Type} {w : World α} {r : HRef} {key : String}
    {object : Container α} (h : IndexNoNever w) (hg : object.expiration ≠ ExpiresNever) :
    IndexNoNever (expirationCacheSet w r key object) := by
  unfold expirationCacheSet
  cases ho : object.expiration with
  | none => exact h
  | some a =>
      have hck : (cloneExpirationContainer object).expiration ≠ ExpiresNever ∧
          (cloneExpirationContainer object).expiration ≠ none := by
        unfold cloneExpirationContainer
        refine ⟨?_, ?_⟩
        · rw [ho] at hg ⊢
          exact hg
        · rw [ho]
          simp
      cases r
      · exact ⟨noNeverList_set h.1 hck, h.2⟩
      · exact ⟨h.1, noNeverList_set h.2 hck⟩

theorem indexNoNever_RemoveOp {α : Type} {w : World α} {r : HRef} {key : String}
    (h : IndexNoNever w) : IndexNoNever (RemoveOp w r key) := by
  unfold RemoveOp
  apply indexNoNever_expireInternal
  cases r <;> exact h

theorem indexNoNever_sharedRemove {α : Type} {w : World α} {key : String}
    (h : IndexNoNever w) : IndexNoNever (sharedRemove w key) :=
  indexNoNever_RemoveOp h

theorem indexNoNever_SetOp {α : Type} {w : World α} {r : HRef} {key : String} {v : α}
    {e : Option ExpRef} {now : Int} (h : IndexNoNever w) :
    IndexNoNever (SetOp w r key v e now) := by
  cases e
  all_goals
    simp only [SetOp]
    split
    next hg =>
      exact indexNoNever_startFlushManager
        (indexNoNever_expirationCacheSet (indexNoNever_cacheSet h) hg.2)
    next hg => exact indexNoNever_cacheSet h

theorem indexNoNever_getMiss {α : Type} {w : World α} {r : HRef} {key : String}
    {g : Option (α × ExpRef)} {now : Int} (h : IndexNoNever w) :
    IndexNoNever ((getMiss w r key g now).2.1) := by
  cases g with
  | none => exact h
  | some p => exact indexNoNever_SetOp h

theorem indexNoNever_getSlow {α : Type} {w : World α} {r : HRef} {key : String}
    {g : Option (α × ExpRef)} {now : Int} (h : IndexNoNever w) :
    IndexNoNever ((getSlow w r key g now).2.1) := by
  simp only [getSlow]
  split
  · split
    · exact indexNoNever_getMiss (indexNoNever_sharedRemove h)
    · exact h
  · exact indexNoNever_getMiss h

theorem indexNoNever_getFastWorld {α : Type} {w : World α} {r : HRef} {key : String}
    {object : Container α} {now : Int} (h : IndexNoNever w) :
    IndexNoNever (getFastWorld w r key object now) := by
  simp only [getFastWorld]
  split
  next hg => exact indexNoNever_expirationCacheSet (indexNoNever_cacheSet h) hg.2
  next hg => exact indexNoNever_cacheSet h

theorem indexNoNever_Get {α : Type} {w : World α} {r : HRef} {key : String}
    {g : Option (α × ExpRef)} {now : Int} (h : IndexNoNever w) :
    IndexNoNever ((Get w r key g now).2.1) := by
  simp only [Get]
  split
  · exact indexNoNever_getSlow h
  · split
    · exact indexNoNever_getSlow (indexNoNever_sharedRemove h)
    · exact indexNoNever_getFastWorld h

theorem indexNoNever_getWithErrorMiss {α ε : Type} {w : World α} {r : HRef} {key : String}
    {g : Option (α × Option ε × ExpRef)} {now : Int} (h : IndexNoNever w) :
    IndexNoNever ((getWithErrorMiss w r key g now).2.1) := by
  cases g with
  | none => exact h
  | some p =>
      obtain ⟨data, err, ex⟩ := p
      cases err with
      | none => exact indexNoNever_SetOp h
      | some e0 => exact h

theorem indexNoNever_getWithErrorSlow {α ε : Type} {w : World α} {r : HRef} {key : String}
    {g : Option (α × Option ε × ExpRef)} {now : Int} (h : IndexNoNever w) :
    IndexNoNever ((getWithErrorSlow w r key g now).2.1) := by
  simp only [getWithErrorSlow]
  split
  · split
    · exact indexNoNever_getWithErrorMiss (indexNoNever_sharedRemove h)
    · exact h
  · exact indexNoNever_getWithErrorMiss h

theorem indexNoNever_GetWithError {α ε : Type} {w : World α} {r : HRef} {key : String}
    {g : Option (α × Option ε × ExpRef)} {now : Int} (h : IndexNoNever w) :
    IndexNoNever ((GetWithError w r key g now).2.1) := by
  simp only [GetWithError]
  split
  · exact indexNoNever_getWithErrorSlow h
  · split
    · exact indexNoNever_getWithErrorSlow (indexNoNever_sharedRemove h)
    · exact indexNoNever_getFastWorld h

theorem indexNoNever_SetExpires {α : Type} {w : World α} {r : HRef} {key : String}
    {e : ExpRef} (h : IndexNoNever w) : IndexNoNever ((SetExpires w r key e).2) := by
  simp only [SetExpires]
  split
  · exact h
  · split
    all_goals
      split
      next hg => exact indexNoNever_expireInternal (indexNoNever_cacheSet h)
      next hg =>
        push_neg at hg
        exact indexNoNever_expirationCacheSet (indexNoNever_cacheSet h) hg.1

/-- C6: every public operation — `Get`, `GetWithError`, `Set`, `Remove`,
`Has` and `SetExpires` — preserves the invariant that no key of any hoard's
Expirable Index maps to an entry whose policy is the `ExpiresNever` sentinel
or nil: if the pre-state satisfies it, so does the post-state. -/
theorem index_never_free_invariant {α ε : Type} (w : World α) (op : POp α ε)
    (h : IndexNoNever w) : IndexNoNever (applyOp w op) := by
  cases op with
  | get r key g now => exact indexNoNever_Get h
  | getWithError r key g now => exact indexNoNever_GetWithError h
  | set r key v e now => exact indexNoNever_SetOp h
  | remove r key => exact indexNoNever_RemoveOp h
  | has r key => exact h
  | setExpires r key e => exact indexNoNever_SetExpires h

/-- C6 witness: the invariant holds before and after a concrete `Set` of an
expirable policy on a world already holding one expirable entry. -/
theorem index_never_free_invariant_witness :
    IndexNoNever (⟨⟨[("k", ⟨1, 0, 0, some 1⟩)], [("k", ⟨0, 0, some 1⟩)], ExpiresNever, true⟩,
        MakeH Int ExpiresNever, fun a => if a = 1 then ⟨0, 5, 0, 0, none⟩ else emptyExp⟩ :
        World Int) ∧
    IndexNoNever (applyOp
      (⟨⟨[("k", ⟨1, 0, 0, some 1⟩)], [("k", ⟨0, 0, some 1⟩)], ExpiresNever, true⟩,
        MakeH Int ExpiresNever, fun a => if a = 1 then ⟨0, 5, 0, 0, none⟩ else emptyExp⟩ :
        World Int)
      (@POp.set Int Unit HRef.inst "j" 2 (some (some 1)) 4)) :=
  ⟨by decide,
    index_never_free_invariant _ (@POp.set Int Unit HRef.inst "j" 2 (some (some 1)) 4)
      (by decide)⟩

/-! ### C8: sweeper lifecycle invariant -/

theorem mem_mapErase_full {β : Type} {m : SMap β} {k : String} {p : String × β}
    (hp : p ∈ mapErase m k) : p ∈ m ∧ p.1 ≠ k := by
  have h := List.mem_filter.mp hp
  refine ⟨h.1, ?_⟩
  simpa using h.2

theorem mem_mapSet_full {β : Type} {m : SMap β} {k : String} {v : β} {p : String × β}
    (hp : p ∈ mapSet m k v) : p = (k, v) ∨ (p ∈ m ∧ p.1 ≠ k) := by
  rcases List.mem_cons.mp hp with h | h
  · exact Or.inl h
  · exact Or.inr (mem_mapErase_full h)

theorem mapGet_isSome_ne_nil {β : Type} {m : SMap β} {k : String}
    (h : (mapGet m k).isSome = true) : m ≠ [] := by
  intro hemp
  rw [hemp] at h
  simp [mapGet] at h

theorem mapErase_ne_nil {β : Type} {m : SMap β} {k : String}
    (h : mapErase m k ≠ []) : m ≠ [] := by
  intro hemp
  exact h (by rw [hemp]; rfl)

theorem cacheSet_cache_self {α : Type} {w : World α} {r : HRef} {key : String}
    {c : Container α} :
    ((cacheSet w r key c).hoardAt r).cache = mapSet (w.hoardAt r).cache key c := by
  unfold cacheSet
  cases r <;> rfl

theorem cacheSet_cache_other {α : Type} {w : World α} {r r' : HRef} {key : String}
    {c : Container α} (hne : r' ≠ r) :
    ((cacheSet w r key c).hoardAt r').cache = (w.hoardAt r').cache := by
  unfold cacheSet
  cases r <;> cases r' <;> first | rfl | exact absurd rfl hne

theorem cacheSet_index {α : Type} {w : World α} {r : HRef} {key : String}
    {c : Container α} (r' : HRef) :
    ((cacheSet w r key c).hoardAt r').expirationCache = (w.hoardAt r').expirationCache := by
  unfold cacheSet
  cases r <;> cases r' <;> rfl

theorem cacheSet_ticker {α : Type} {w : World α} {r : HRef} {key : String}
    {c : Container α} (r' : HRef) :
    ((cacheSet w r key c).hoardAt r').tickerRunning = (w.hoardAt r').tickerRunning := by
  unfold cacheSet
  cases r <;> cases r' <;> rfl

theorem removeOp_cache_self {α : Type} {w : World α} {r : HRef} {key : String} :
    ((RemoveOp w r key).hoardAt r).cache = mapErase (w.hoardAt r).cache key := by
  unfold RemoveOp expireInternal
  cases r <;> rfl

theorem removeOp_index_self {α : Type} {w : World α} {r : HRef} {key : String} :
    ((RemoveOp w r key).hoardAt r).expirationCache =
      mapErase (w.hoardAt r).expirationCache key := by
  unfold RemoveOp expireInternal
  cases r <;> rfl

theorem removeOp_cache_other {α : Type} {w : World α} {r r' : HRef} {key : String}
    (hne : r' ≠ r) : ((RemoveOp w r key).hoardAt r').cache = (w.hoardAt r').cache := by
  unfold RemoveOp expireInternal
  cases r <;> cases r' <;> first | rfl | exact absurd rfl hne

theorem removeOp_index_other {α : Type} {w : World α} {r r' : HRef} {key : String}
    (hne : r' ≠ r) :
    ((RemoveOp w r key).hoardAt r').expirationCache = (w.hoardAt r').expirationCache := by
  unfold RemoveOp expireInternal
  cases r <;> cases r' <;> first | rfl | exact absurd rfl hne

theorem removeOp_ticker {α : Type} {w : World α} {r : HRef} {key : String} (r' : HRef) :
    ((RemoveOp w r key).hoardAt r').tickerRunning = (w.hoardAt r').tickerRunning := by
  unfold RemoveOp expireInternal
  cases r <;> cases r' <;> rfl

theorem ecs_cache {α : Type} {w : World α} {r : HRef} {key : String}
    {object : Container α} (r' : HRef) :
    ((expirationCacheSet w r key object).hoardAt r').cache = (w.hoardAt r').cache := by
  unfold expirationCacheSet
  cases ho : object.expiration <;> cases r <;> cases r' <;> rfl

theorem ecs_ticker {α : Type} {w : World α} {r : HRef} {key : String}
    {object : Container α} (r' : HRef) :
    ((expirationCacheSet w r key object).hoardAt r').tickerRunning =
      (w.hoardAt r').tickerRunning := by
  unfold expirationCacheSet
  cases ho : object.expiration <;> cases r <;> cases r' <;> rfl

theorem ecs_index_self {α : Type} {w : World α} {r : HRef} {key : String}
    {object : Container α} {a : Nat} (ha : object.expiration = some a) :
    ((expirationCacheSet w r key object).hoardAt r).expirationCache =
      mapSet (w.hoardAt r).expirationCache key (cloneExpirationContainer object) := by
  unfold expirationCacheSet
  rw [ha]
  cases r <;> rfl

theorem ecs_index_other {α : Type} {w : World α} {r r' : HRef} {key : String}
    {object : Container α} (hne : r' ≠ r) :
    ((expirationCacheSet w r key object).hoardAt r').expirationCache =
      (w.hoardAt r').expirationCache := by
  unfold expirationCacheSet
  cases ho : object.expiration <;> cases r <;> cases r' <;> first | rfl | exact absurd rfl hne

theorem ecs_heap_some {α : Type} {w : World α} {r : HRef} {key : String}
    {object : Container α} {a : Nat} (ha : object.expiration = some a) :
    (expirationCacheSet w r key object).heap =
      heapUpdate w.heap a (updateAbsoluteTime (w.heap a) object.accessed object.created) := by
  unfold expirationCacheSet
  rw [ha]
  cases r <;> rfl

theorem sfm_ticker_self {α : Type} {w : World α} {r : HRef} :
    ((startFlushManager w r).hoardAt r).tickerRunning = true := by
  unfold startFlushManager
  split
  next h => exact h
  next h => cases r <;> rfl

theorem sfm_ticker_other {α : Type} {w : World α} {r r' : HRef} (hne : r' ≠ r) :
    ((startFlushManager w r).hoardAt r').tickerRunning = (w.hoardAt r').tickerRunning := by
  unfold startFlushManager
  split
  · rfl
  · cases r <;> cases r' <;> first | rfl | exact absurd rfl hne

theorem sfm_cache {α : Type} {w : World α} {r : HRef} (r' : HRef) :
    ((startFlushManager w r).hoardAt r').cache = (w.hoardAt r').cache := by
  unfold startFlushManager
  split
  · rfl
  · cases r <;> cases r' <;> rfl

theorem sfm_index {α : Type} {w : World α} {r : HRef} (r' : HRef) :
    ((startFlushManager w r).hoardAt r').expirationCache =
      (w.hoardAt r').expirationCache := by
  unfold startFlushManager
  split
  · rfl
  · cases r <;> cases r' <;> rfl

theorem sweepInv_iff_at {α : Type} {w : World α} :
    SweepInv w ↔ ∀ r, hoardOk (w.hoardAt r) := by
  constructor
  · intro h r
    cases r
    · exact h.1
    · exact h.2
  · intro h
    exact ⟨h .shared, h .inst⟩

theorem sweepInv_write_start {α : Type} {w : World α} {r : HRef} {key : String}
    {c : Container α} {a : Nat} (ha : c.expiration = some a) (h : SweepInv w) :
    SweepInv (startFlushManager (expirationCacheSet (cacheSet w r key c) r key c) r) := by
  rw [sweepInv_iff_at] at h ⊢
  intro r'
  by_cases hr : r' = r
  · subst hr
    constructor
    · intro _
      exact sfm_ticker_self
    · intro p hp hex
      rw [sfm_cache, ecs_cache, cacheSet_cache_self] at hp
      rw [sfm_index, ecs_index_self ha, cacheSet_index]
      rcases mem_mapSet_full hp with heq | hf
      · rw [heq]
        rw [mapGet_mapSet]
        simp
      · rw [mapGet_mapSet, if_neg hf.2]
        exact (h r').2 p hf.1 hex
  · constructor
    · intro hne
      rw [sfm_ticker_other hr, ecs_ticker, cacheSet_ticker]
      apply (h r').1
      rwa [sfm_index, ecs_index_other hr, cacheSet_index] at hne
    · intro p hp hex
      rw [sfm_cache, ecs_cache, cacheSet_cache_other hr] at hp
      rw [sfm_index, ecs_index_other hr, cacheSet_index]
      exact (h r').2 p hp hex

theorem sweepInv_write_nostart {α : Type} {w : World α} {r : HRef} {key : String}
    {c : Container α} {a : Nat} (ha : c.expiration = some a) (h : SweepInv w)
    (hrun : (w.hoardAt r).tickerRunning = true) :
    SweepInv (expirationCacheSet (cacheSet w r key c) r key c) := by
  rw [sweepInv_iff_at] at h ⊢
  intro r'
  by_cases hr : r' = r
  · subst hr
    constructor
    · intro _
      rw [ecs_ticker, cacheSet_ticker]
      exact hrun
    · intro p hp hex
      rw [ecs_cache, cacheSet_cache_self] at hp
      rw [ecs_index_self ha, cacheSet_index]
      rcases mem_mapSet_full hp with heq | hf
      · rw [heq]
        rw [mapGet_mapSet]
        simp
      · rw [mapGet_mapSet, if_neg hf.2]
        exact (h r').2 p hf.1 hex
  · constructor
    · intro hne
      rw [ecs_ticker, cacheSet_ticker]
      apply (h r').1
      rwa [ecs_index_other hr, cacheSet_index] at hne
    · intro p hp hex
      rw [ecs_cache, cacheSet_cache_other hr] at hp
      rw [ecs_index_other hr, cacheSet_index]
      exact (h r').2 p hp hex

theorem sweepInv_cacheSet_nonexp {α : Type} {w : World α} {r : HRef} {key : String}
    {c : Container α} (hg : ¬(c.expiration ≠ none ∧ c.expiration ≠ ExpiresNever))
    (h : SweepInv w) : SweepInv (cacheSet w r key c) := by
  rw [sweepInv_iff_at] at h ⊢
  intro r'
  by_cases hr : r' = r
  · subst hr
    constructor
    · intro hne
      rw [cacheSet_ticker]
      apply (h r').1
      rwa [cacheSet_index] at hne
    · intro p hp hex
      rw [cacheSet_cache_self] at hp
      rw [cacheSet_index]
      rcases mem_mapSet_full hp with heq | hf
      · rw [heq] at hex
        exact absurd hex hg
      · exact (h r').2 p hf.1 hex
  · constructor
    · intro hne
      rw [cacheSet_ticker]
      apply (h r').1
      rwa [cacheSet_index] at hne
    · intro p hp hex
      rw [cacheSet_cache_other hr] at hp
      rw [cacheSet_index]
      exact (h r').2 p hp hex

theorem sweepInv_RemoveOp {α : Type} {w : World α} {r : HRef} {key : String}
    (h : SweepInv w) : SweepInv (RemoveOp w r key) := by
  rw [sweepInv_iff_at] at h ⊢
  intro r'
  by_cases hr : r' = r
  · subst hr
    constructor
    · intro hne
      rw [removeOp_ticker]
      apply (h r').1
      rw [removeOp_index_self] at hne
      exact mapErase_ne_nil hne
    · intro p hp hex
      rw [removeOp_cache_self] at hp
      have hf := mem_mapErase_full hp
      rw [removeOp_index_self, mapGet_mapErase, if_neg hf.2]
      exact (h r').2 p hf.1 hex
  · constructor
    · intro hne
      rw [removeOp_ticker]
      apply (h r').1
      rwa [removeOp_index_other hr] at hne
    · intro p hp hex
      rw [removeOp_cache_other hr] at hp
      rw [removeOp_index_other hr]
      exact (h r').2 p hp hex

theorem sweepInv_sharedRemove {α : Type} {w : World α} {key : String}
    (h : SweepInv w) : SweepInv (sharedRemove w key) :=
  sweepInv_RemoveOp h

theorem sweepInv_SetOp {α : Type} {w : World α} {r : HRef} {key : String} {v : α}
    {e : Option ExpRef} {now : Int} (h : SweepInv w) :
    SweepInv (SetOp w r key v e now) := by
  cases e
  all_goals
    simp only [SetOp]
    split
    next hg =>
      obtain ⟨a, ha⟩ := Option.ne_none_iff_exists'.mp hg.1
      exact sweepInv_write_start ha h
    next hg => exact sweepInv_cacheSet_nonexp hg h

theorem sweepInv_getFastWorld {α : Type} {w : World α} {r : HRef} {key : String}
    {object : Container α} {now : Int} (h : SweepInv w)
    (hcg : cacheGet w r key = some object) :
    SweepInv (getFastWorld w r key object now) := by
  simp only [getFastWorld]
  split
  next hg =>
    obtain ⟨a, ha⟩ := Option.ne_none_iff_exists'.mp hg.1
    have hmem : (key, object) ∈ (w.hoardAt r).cache := mapGet_eq_some_mem hcg
    have hidx : (mapGet (w.hoardAt r).expirationCache key).isSome = true :=
      (sweepInv_iff_at.mp h r).2 (key, object) hmem hg
    have hrun : (w.hoardAt r).tickerRunning = true :=
      (sweepInv_iff_at.mp h r).1 (mapGet_isSome_ne_nil hidx)
    exact sweepInv_write_nostart ha h hrun
  next hg => exact sweepInv_cacheSet_nonexp hg h

theorem sweepInv_getMiss {α : Type} {w : World α} {r : HRef} {key : String}
    {g : Option (α × ExpRef)} {now : Int} (h : SweepInv w) :
    SweepInv ((getMiss w r key g now).2.1) := by
  cases g with
  | none => exact h
  | some p => exact sweepInv_SetOp h

theorem sweepInv_getSlow {α : Type} {w : World α} {r : HRef} {key : String}
    {g : Option (α × ExpRef)} {now : Int} (h : SweepInv w) :
    SweepInv ((getSlow w r key g now).2.1) := by
  simp only [getSlow]
  split
  · split
    · exact sweepInv_getMiss (sweepInv_sharedRemove h)
    · exact h
  · exact sweepInv_getMiss h

theorem sweepInv_Get {α : Type} {w : World α} {r : HRef} {key : String}
    {g : Option (α × ExpRef)} {now : Int} (h : SweepInv w) :
    SweepInv ((Get w r key g now).2.1) := by
  cases hcg : cacheGet w r key with
  | none =>
      simp only [Get, hcg]
      exact sweepInv_getSlow h
  | some object =>
      simp only [Get, hcg]
      split
      · exact sweepInv_getSlow (sweepInv_sharedRemove h)
      · exact sweepInv_getFastWorld h hcg

theorem sweepInv_getWithErrorMiss {α ε : Type} {w : World α} {r : HRef} {key : String}
    {g : Option (α × Option ε × ExpRef)} {now : Int} (h : SweepInv w) :
    SweepInv ((getWithErrorMiss w r key g now).2.1) := by
  cases g with
  | none => exact h
  | some p =>
      obtain ⟨data, err, ex⟩ := p
      cases err with
      | none => exact sweepInv_SetOp h
      | some e0 => exact h

theorem sweepInv_getWithErrorSlow {α ε : Type} {w : World α} {r : HRef} {key : String}
    {g : Option (α × Option ε × ExpRef)} {now : Int} (h : SweepInv w) :
    SweepInv ((getWithErrorSlow w r key g now).2.1) := by
  simp only [getWithErrorSlow]
  split
  · split
    · exact sweepInv_getWithErrorMiss (sweepInv_sharedRemove h)
    · exact h
  · exact sweepInv_getWithErrorMiss h

theorem sweepInv_GetWithError {α ε : Type} {w : World α} {r : HRef} {key : String}
    {g : Option (α × Option ε × ExpRef)} {now : Int} (h : SweepInv w) :
    SweepInv ((GetWithError w r key g now).2.1) := by
  cases hcg : cacheGet w r key with
  | none =>
      simp only [GetWithError, hcg]
      exact sweepInv_getWithErrorSlow h
  | some object =>
      simp only [GetWithError, hcg]
      split
      · exact sweepInv_getWithErrorSlow (sweepInv_sharedRemove h)
      · exact sweepInv_getFastWorld h hcg

theorem setOp_starts_sweeper {α : Type} {w : World α} {r : HRef} {key : String}
    {v : α} {e0 : ExpRef} {now : Int} (he1 : e0 ≠ none) (he2 : e0 ≠ ExpiresNever) :
    ((SetOp w r key v (some e0) now).hoardAt r).tickerRunning = true := by
  simp only [SetOp]
  split
  next => exact sfm_ticker_self
  next hg => exact absurd ⟨he1, he2⟩ hg

/-- C8 (amended): the sweeper invariant — "a non-empty Expirable Index implies
a Running sweeper, and every cache entry with a non-nil, non-Never policy is
indexed" — is preserved by every public operation except `SetExpires`
(`Get`, `GetWithError`, `Set`, `Remove`, `Has`), and `Set` (also on the
producer path of `Get`/`GetWithError`, which calls it) turns the sweeper
Running whenever it writes a non-nil, non-Never policy.  `SetExpires`
installing a non-Never policy does not start the sweeper and can violate the
invariant (see the counterexample). -/
theorem sweeper_invariant_preserved {α ε : Type} :
    (∀ (w : World α) (op : POp α ε), op.isSetExpires = false →
        SweepInv w → SweepInv (applyOp w op)) ∧
    (∀ (w : World α) (r : HRef) (key : String) (v : α) (e0 : ExpRef) (now : Int),
        e0 ≠ none → e0 ≠ ExpiresNever →
          ((SetOp w r key v (some e0) now).hoardAt r).tickerRunning = true) := by
  constructor
  · intro w op hop h
    cases op with
    | get r key g now => exact sweepInv_Get h
    | getWithError r key g now => exact sweepInv_GetWithError h
    | set r key v e now => exact sweepInv_SetOp h
    | remove r key => exact sweepInv_RemoveOp h
    | has r key => exact h
    | setExpires r key e => simp [POp.isSetExpires] at hop
  · intro w r key v e0 now he1 he2
    exact setOp_starts_sweeper he1 he2

/-- C8 witness: both conjuncts instantiated on a concrete world — a `Set` of
the expirable policy at address 1 preserves the invariant and leaves the
sweeper Running. -/
theorem sweeper_invariant_preserved_witness :
    ((@POp.set Int Unit HRef.inst "k" 5 (some (some 1)) 3).isSetExpires = false ∧
      SweepInv (⟨MakeH Int ExpiresNever, MakeH Int ExpiresNever,
        fun a => if a = 1 then ⟨0, 5, 0, 0, none⟩ else emptyExp⟩ : World Int) ∧
      SweepInv (applyOp
        (⟨MakeH Int ExpiresNever, MakeH Int ExpiresNever,
          fun a => if a = 1 then ⟨0, 5, 0, 0, none⟩ else emptyExp⟩ : World Int)
        (@POp.set Int Unit HRef.inst "k" 5 (some (some 1)) 3))) ∧
    ((some 1 : ExpRef) ≠ none ∧ (some 1 : ExpRef) ≠ ExpiresNever ∧
      ((SetOp (⟨MakeH Int ExpiresNever, MakeH Int ExpiresNever,
          fun a => if a = 1 then ⟨0, 5, 0, 0, none⟩ else emptyExp⟩ : World Int)
        HRef.inst "k" (5 : Int) (some (some 1)) 3).hoardAt HRef.inst).tickerRunning = true) :=
  ⟨⟨by decide, by decide,
      (@sweeper_invariant_preserved Int Unit).1
        (⟨MakeH Int ExpiresNever, MakeH Int ExpiresNever,
          fun a => if a = 1 then ⟨0, 5, 0, 0, none⟩ else emptyExp⟩ : World Int)
        (@POp.set Int Unit HRef.inst "k" 5 (some (some 1)) 3) (by decide) (by decide)⟩,
    ⟨by decide, by decide,
      (@sweeper_invariant_preserved Int Unit).2
        (⟨MakeH Int ExpiresNever, MakeH Int ExpiresNever,
          fun a => if a = 1 then ⟨0, 5, 0, 0, none⟩ else emptyExp⟩ : World Int)
        HRef.inst "k" 5 (some 1) 3 (by decide) (by decide)⟩⟩

/-! ### Computation lemmas for Get, GetWithError, Set, SetExpires -/

theorem cacheSet_heap {α : Type} {w : World α} {r : HRef} {key : String}
    {c : Container α} : (cacheSet w r key c).heap = w.heap := by
  unfold cacheSet
  cases r <;> rfl

theorem sfm_heap {α : Type} {w : World α} {r : HRef} :
    (startFlushManager w r).heap = w.heap := by
  unfold startFlushManager
  split
  · rfl
  · cases r <;> rfl

theorem expireInternal_cache {α : Type} {w : World α} {r : HRef} {key : String}
    (r' : HRef) :
    ((expireInternal w r key).hoardAt r').cache = (w.hoardAt r').cache := by
  unfold expireInternal
  cases r <;> cases r' <;> rfl

theorem removeOp_heap {α : Type} {w : World α} {r : HRef} {key : String} :
    (RemoveOp w r key).heap = w.heap := by
  unfold RemoveOp expireInternal
  cases r <;> rfl

/-- `Get` on a miss with a producer: the producer runs once, its value is
stored by `Set` (after `ExpiresDefault` substitution) and returned. -/
theorem get_miss_eq {α : Type} (w : World α) (r : HRef) (key : String) (v : α)
    (e : ExpRef) (now : Int) (hmiss : cacheGet w r key = none) :
    Get w r key (some (v, e)) now =
      (some v,
       SetOp w r key v
         (some (if e = ExpiresDefault then (w.hoardAt r).defaultExpiration else e)) now,
       1) := by
  simp only [Get, hmiss, getSlow, getMiss]

/-- `Get` on a fresh hit: the short circuit returns the cached value. -/
theorem get_hit_eq {α : Type} (w : World α) (r : HRef) (key : String)
    (object : Container α) (g : Option (α × ExpRef)) (now : Int)
    (hcg : cacheGet w r key = some object)
    (hee : entryExpired w object now = false) :
    Get w r key g now = (some object.data, getFastWorld w r key object now, 0) := by
  simp [Get, hcg, hee]

/-- `GetWithError` on a miss with an error-free producer. -/
theorem getWithError_miss_ok_eq {α ε : Type} (w : World α) (r : HRef) (key : String)
    (v : α) (e : ExpRef) (now : Int) (hmiss : cacheGet w r key = none) :
    GetWithError w r key (some (v, (none : Option ε), e)) now =
      ((some v, none),
       SetOp w r key v
         (some (if e = ExpiresDefault then (w.hoardAt r).defaultExpiration else e)) now,
       1) := by
  simp only [GetWithError, hmiss, getWithErrorSlow, getWithErrorMiss]

/-- `GetWithError` on a miss whose producer errors: the error short-circuits
before anything is stored, and the world is returned untouched. -/
theorem getWithError_miss_err_eq {α ε : Type} (w : World α) (r : HRef) (key : String)
    (v : α) (err : ε) (e : ExpRef) (now : Int) (hmiss : cacheGet w r key = none) :
    GetWithError w r key (some (v, some err, e)) now = ((some v, some err), w, 1) := by
  simp only [GetWithError, hmiss, getWithErrorSlow, getWithErrorMiss]

/-- The entry `Set` stores. -/
theorem cacheGet_SetOp_self {α : Type} (w : World α) (r : HRef) (key : String)
    (v : α) (e0 : ExpRef) (now : Int) :
    cacheGet (SetOp w r key v (some e0) now) r key = some ⟨v, now, now, e0⟩ := by
  unfold cacheGet
  simp only [SetOp]
  split
  · rw [sfm_cache, ecs_cache, cacheSet_cache_self, mapGet_mapSet, if_pos rfl]
  · rw [cacheSet_cache_self, mapGet_mapSet, if_pos rfl]

/-- The entry `SetExpires` leaves in the cache: the old entry with its policy
replaced (after `ExpiresDefault` substitution). -/
theorem setExpires_cache_self {α : Type} (w : World α) (r : HRef) (key : String)
    (e : ExpRef) (object : Container α) (hcg : cacheGet w r key = some object) :
    cacheGet ((SetExpires w r key e).2) r key =
      some { object with
             expiration := if e = ExpiresDefault then (w.hoardAt r).defaultExpiration
                           else e } := by
  simp only [SetExpires, hcg]
  unfold cacheGet
  split
  all_goals
    split
    all_goals
      first
        | rw [expireInternal_cache, cacheSet_cache_self, mapGet_mapSet, if_pos rfl]
        | rw [ecs_cache, cacheSet_cache_self, mapGet_mapSet, if_pos rfl]

/-! ### C1: single producer evaluation across two sequential gets -/

/-- C1: starting from a state where `key` is absent, `Get(key, producer)`
invokes the producer exactly once and returns its value; a second
`Get(key, producer)` whose stored policy has not expired at the later instant
returns the same value and does not invoke the producer again — one producer
invocation across the two calls. -/
theorem get_single_evaluation {α : Type} (w : World α) (r : HRef) (key : String)
    (v : α) (e : ExpRef) (n₁ n₂ : Int)
    (hmiss : cacheGet w r key = none)
    (hfresh : ∀ a,
      (if e = ExpiresDefault then (w.hoardAt r).defaultExpiration else e) = some a →
      IsExpired ((Get w r key (some (v, e)) n₁).2.1.heap a) n₁ n₁ n₂ = false) :
    (Get w r key (some (v, e)) n₁).1 = some v ∧
    (Get w r key (some (v, e)) n₁).2.2 = 1 ∧
    (Get ((Get w r key (some (v, e)) n₁).2.1) r key (some (v, e)) n₂).1 = some v ∧
    (Get ((Get w r key (some (v, e)) n₁).2.1) r key (some (v, e)) n₂).2.2 = 0 := by
  have hA := get_miss_eq w r key v e n₁ hmiss
  have hcg1 : cacheGet ((Get w r key (some (v, e)) n₁).2.1) r key =
      some ⟨v, n₁, n₁, if e = ExpiresDefault then (w.hoardAt r).defaultExpiration else e⟩ := by
    rw [hA]
    exact cacheGet_SetOp_self w r key v _ n₁
  have hee : entryExpired ((Get w r key (some (v, e)) n₁).2.1)
      ⟨v, n₁, n₁, if e = ExpiresDefault then (w.hoardAt r).defaultExpiration else e⟩ n₂
      = false := by
    have hshape : entryExpired ((Get w r key (some (v, e)) n₁).2.1)
        ⟨v, n₁, n₁, if e = ExpiresDefault then (w.hoardAt r).defaultExpiration else e⟩ n₂ =
        (match (if e = ExpiresDefault then (w.hoardAt r).defaultExpiration else e) with
         | some a => IsExpired (((Get w r key (some (v, e)) n₁).2.1).heap a) n₁ n₁ n₂
         | none => false) := rfl
    rw [hshape]
    cases he : (if e = ExpiresDefault then (w.hoardAt r).defaultExpiration else e) with
    | none => rfl
    | some a => exact hfresh a he
  have hB := get_hit_eq ((Get w r key (some (v, e)) n₁).2.1) r key
      ⟨v, n₁, n₁, if e = ExpiresDefault then (w.hoardAt r).defaultExpiration else e⟩
      (some (v, e)) n₂ hcg1 hee
  refine ⟨by rw [hA], by rw [hA], ?_, ?_⟩
  · rw [hB]
  · rw [hB]

/-- C1 witness: empty instance hoard, duration-100 policy at address 1,
first call at 0, second at 1. -/
theorem get_single_evaluation_witness :
    (cacheGet (⟨MakeH Int ExpiresNever, MakeH Int ExpiresNever,
        fun a => if a = 1 then ⟨0, 100, 0, 0, none⟩ else emptyExp⟩ : World Int)
      .inst "k" = none ∧
     (∀ a, (if (some 1 : ExpRef) = ExpiresDefault then
          ((⟨MakeH Int ExpiresNever, MakeH Int ExpiresNever,
            fun a => if a = 1 then ⟨0, 100, 0, 0, none⟩ else emptyExp⟩ : World Int).hoardAt
              .inst).defaultExpiration
        else (some 1 : ExpRef)) = some a →
       IsExpired ((Get (⟨MakeH Int ExpiresNever, MakeH Int ExpiresNever,
          fun a => if a = 1 then ⟨0, 100, 0, 0, none⟩ else emptyExp⟩ : World Int)
          .inst "k" (some ((7 : Int), some 1)) 0).2.1.heap a) 0 0 1 = false)) ∧
    ((Get (⟨MakeH Int ExpiresNever, MakeH Int ExpiresNever,
        fun a => if a = 1 then ⟨0, 100, 0, 0, none⟩ else emptyExp⟩ : World Int)
        .inst "k" (some ((7 : Int), some 1)) 0).1 = some 7 ∧
     (Get (⟨MakeH Int ExpiresNever, MakeH Int ExpiresNever,
        fun a => if a = 1 then ⟨0, 100, 0, 0, none⟩ else emptyExp⟩ : World Int)
        .inst "k" (some ((7 : Int), some 1)) 0).2.2 = 1 ∧
     (Get ((Get (⟨MakeH Int ExpiresNever, MakeH Int ExpiresNever,
          fun a => if a = 1 then ⟨0, 100, 0, 0, none⟩ else emptyExp⟩ : World Int)
          .inst "k" (some ((7 : Int), some 1)) 0).2.1) .inst "k" (some ((7 : Int), some 1)) 1).1
        = some 7 ∧
     (Get ((Get (⟨MakeH Int ExpiresNever, MakeH Int ExpiresNever,
          fun a => if a = 1 then ⟨0, 100, 0, 0, none⟩ else emptyExp⟩ : World Int)
          .inst "k" (some ((7 : Int), some 1)) 0).2.1) .inst "k" (some ((7 : Int), some 1)) 1).2.2
        = 0) :=
  ⟨⟨by decide, by
      intro a ha
      simp only [ExpiresDefault, reduceCtorEq, if_neg] at ha
      cases ha
      decide⟩,
    get_single_evaluation _ .inst "k" 7 (some 1) 0 1 (by decide)
      (by
        intro a ha
        simp only [ExpiresDefault, reduceCtorEq, if_neg] at ha
        cases ha
        decide)⟩

/-! ### C3: Default-sentinel substitution paths -/

/-- C3 (amended): the `ExpiresDefault` sentinel is substituted by the engine
default when returned by a producer inside `Get`/`GetWithError` and when
passed to `SetExpires`; `Set`, however, substitutes the default only when its
variadic argument is omitted — an explicit `ExpiresDefault` argument is
stored as-is (the nil sentinel itself). -/
theorem default_substitution_paths {α ε : Type} (w : World α) (r : HRef) (key : String)
    (v : α) (now : Int) :
    (cacheGet w r key = none →
      (cacheGet ((Get w r key (some (v, ExpiresDefault)) now).2.1) r key).map
          Container.expiration = some ((w.hoardAt r).defaultExpiration)) ∧
    (cacheGet w r key = none →
      (cacheGet ((GetWithError w r key (some (v, (none : Option ε), ExpiresDefault)) now).2.1)
          r key).map Container.expiration = some ((w.hoardAt r).defaultExpiration)) ∧
    (∀ object : Container α, cacheGet w r key = some object →
      (cacheGet ((SetExpires w r key ExpiresDefault).2) r key).map Container.expiration
        = some ((w.hoardAt r).defaultExpiration)) ∧
    ((cacheGet (SetOp w r key v (some ExpiresDefault) now) r key).map Container.expiration
        = some ExpiresDefault) := by
  refine ⟨?_, ?_, ?_, ?_⟩
  · intro hmiss
    rw [get_miss_eq w r key v ExpiresDefault now hmiss]
    show (cacheGet (SetOp w r key v
        (some (if (ExpiresDefault : ExpRef) = ExpiresDefault
               then (w.hoardAt r).defaultExpiration else ExpiresDefault)) now) r key).map
        Container.expiration = _
    rw [if_pos rfl, cacheGet_SetOp_self]
    rfl
  · intro hmiss
    rw [getWithError_miss_ok_eq w r key v ExpiresDefault now hmiss]
    show (cacheGet (SetOp w r key v
        (some (if (ExpiresDefault : ExpRef) = ExpiresDefault
               then (w.hoardAt r).defaultExpiration else ExpiresDefault)) now) r key).map
        Container.expiration = _
    rw [if_pos rfl, cacheGet_SetOp_self]
    rfl
  · intro object hcg
    rw [setExpires_cache_self w r key ExpiresDefault object hcg]
    rw [if_pos rfl]
    rfl
  · rw [cacheGet_SetOp_self]
    rfl

/-- C3 witness: an engine whose default policy lives at address 1; the
producer path substitutes it, while `Set` with an explicit `ExpiresDefault`
stores the sentinel itself. -/
theorem default_substitution_paths_witness :
    (cacheGet (⟨MakeH Int ExpiresNever,
        ⟨[("p", ⟨9, 0, 0, ExpiresNever⟩)], [], some 1, false⟩,
        fun a => if a = 1 then ⟨0, 5, 0, 0, none⟩ else emptyExp⟩ : World Int) .inst "k"
      = none ∧
     cacheGet (⟨MakeH Int ExpiresNever,
        ⟨[("p", ⟨9, 0, 0, ExpiresNever⟩)], [], some 1, false⟩,
        fun a => if a = 1 then ⟨0, 5, 0, 0, none⟩ else emptyExp⟩ : World Int) .inst "p"
      = some ⟨9, 0, 0, ExpiresNever⟩) ∧
    ((cacheGet ((Get (⟨MakeH Int ExpiresNever,
          ⟨[("p", ⟨9, 0, 0, ExpiresNever⟩)], [], some 1, false⟩,
          fun a => if a = 1 then ⟨0, 5, 0, 0, none⟩ else emptyExp⟩ : World Int)
          .inst "k" (some ((7 : Int), ExpiresDefault)) 2).2.1) .inst "k").map
        Container.expiration = some (some 1) ∧
     (cacheGet ((GetWithError (⟨MakeH Int ExpiresNever,
          ⟨[("p", ⟨9, 0, 0, ExpiresNever⟩)], [], some 1, false⟩,
          fun a => if a = 1 then ⟨0, 5, 0, 0, none⟩ else emptyExp⟩ : World Int)
          .inst "k" (some ((7 : Int), (none : Option String), ExpiresDefault)) 2).2.1)
          .inst "k").map Container.expiration = some (some 1) ∧
     (cacheGet ((SetExpires (⟨MakeH Int ExpiresNever,
          ⟨[("p", ⟨9, 0, 0, ExpiresNever⟩)], [], some 1, false⟩,
          fun a => if a = 1 then ⟨0, 5, 0, 0, none⟩ else emptyExp⟩ : World Int)
          .inst "p" ExpiresDefault).2) .inst "p").map Container.expiration = some (some 1) ∧
     (cacheGet (SetOp (⟨MakeH Int ExpiresNever,
          ⟨[("p", ⟨9, 0, 0, ExpiresNever⟩)], [], some 1, false⟩,
          fun a => if a = 1 then ⟨0, 5, 0, 0, none⟩ else emptyExp⟩ : World Int)
          .inst "k" (7 : Int) (some ExpiresDefault) 2) .inst "k").map Container.expiration
        = some ExpiresDefault) :=
  ⟨⟨by decide, by decide⟩,
    (@default_substitution_paths Int String _ .inst "k" 7 2).1 (by decide),
    (@default_substitution_paths Int String _ .inst "k" 7 2).2.1 (by decide),
    (@default_substitution_paths Int String _ .inst "p" 7 2).2.2.1 ⟨9, 0, 0, ExpiresNever⟩
      (by decide),
    (@default_substitution_paths Int String _ .inst "k" 7 2).2.2.2⟩

/-! ### C5: producer error writes nothing -/

/-- C5 (amended): a `GetWithError` call that finds no entry for the key and
whose producer returns a non-nil error changes nothing: the producer's data
and error are returned verbatim, the producer ran exactly once, and the whole
state — Entry Store, Expirable Index, heap — is exactly the pre-call state,
so any subsequent `GetWithError` for the key invokes its producer again. -/
theorem getWithError_error_no_write {α ε : Type} (w : World α) (r : HRef) (key : String)
    (v : α) (err : ε) (e : ExpRef) (now : Int)
    (hmiss : cacheGet w r key = none) :
    GetWithError w r key (some (v, some err, e)) now = ((some v, some err), w, 1) ∧
    (∀ (u : α) (err2 : Option ε) (e2 : ExpRef) (n : Int),
      (GetWithError w r key (some (u, err2, e2)) n).2.2 = 1) := by
  refine ⟨getWithError_miss_err_eq w r key v err e now hmiss, ?_⟩
  intro u err2 e2 n
  cases err2 with
  | some err2 => rw [getWithError_miss_err_eq w r key u err2 e2 n hmiss]
  | none => rw [getWithError_miss_ok_eq w r key u e2 n hmiss]

/-- C5 witness: empty world, producer returning the error "boom". -/
theorem getWithError_error_no_write_witness :
    cacheGet (⟨MakeH Int ExpiresNever, MakeH Int ExpiresNever, fun _ => emptyExp⟩ : World Int)
      .inst "k" = none ∧
    GetWithError (⟨MakeH Int ExpiresNever, MakeH Int ExpiresNever, fun _ => emptyExp⟩ :
        World Int) .inst "k" (some ((9 : Int), some "boom", ExpiresNever)) 4 =
      ((some 9, some "boom"),
       (⟨MakeH Int ExpiresNever, MakeH Int ExpiresNever, fun _ => emptyExp⟩ : World Int), 1) ∧
    (GetWithError (⟨MakeH Int ExpiresNever, MakeH Int ExpiresNever, fun _ => emptyExp⟩ :
        World Int) .inst "k" (some ((8 : Int), some "again", ExpiresNever)) 5).2.2 = 1 :=
  ⟨by decide,
    (getWithError_error_no_write _ .inst "k" 9 "boom" ExpiresNever 4 (by decide)).1,
    (getWithError_error_no_write _ .inst "k" (9 : Int) "boom" ExpiresNever 4 (by decide)).2
      8 (some "again") ExpiresNever 5⟩

/-! ### C7: the fast path evaluates the full policy -/

theorem entryExpired_sharedRemove {α : Type} {w : World α} {key : String}
    {c : Container α} {now : Int} :
    entryExpired (sharedRemove w key) c now = entryExpired w c now := by
  unfold entryExpired sharedRemove
  cases hc : c.expiration
  · rfl
  · rw [removeOp_heap]

theorem gfw_cache_self {α : Type} (w : World α) (r : HRef) (key : String)
    (object : Container α) (now : Int) :
    ((getFastWorld w r key object now).hoardAt r).cache =
      mapSet (w.hoardAt r).cache key { object with accessed := now } := by
  simp only [getFastWorld]
  split
  · rw [ecs_cache, cacheSet_cache_self]
  · rw [cacheSet_cache_self]

theorem gfw_index_expirable {α : Type} (w : World α) (r : HRef) (key : String)
    (object : Container α) (now : Int) (a : Nat) (ha : object.expiration = some a)
    (hnev : a ≠ neverAddr) :
    ((getFastWorld w r key object now).hoardAt r).expirationCache =
      mapSet (w.hoardAt r).expirationCache key ⟨now, object.created, some a⟩ := by
  simp only [getFastWorld]
  split
  next hg =>
    have hcl : cloneExpirationContainer ({ object with accessed := now } : Container α) =
        ⟨now, object.created, some a⟩ := by
      simp [cloneExpirationContainer, ha]
    rw [ecs_index_self
          (show ({ object with accessed := now } : Container α).expiration = some a from ha),
        cacheSet_index, hcl]
  next hg =>
    refine absurd ⟨?_, ?_⟩ hg
    · show object.expiration ≠ none
      rw [ha]
      simp
    · show object.expiration ≠ ExpiresNever
      rw [ha]
      simp only [ExpiresNever, ne_eq, Option.some.injEq]
      exact hnev

/-- C7 (amended): a found entry with a non-nil policy is treated as a miss —
the producer is re-invoked — exactly when the full `IsExpired` evaluation
(the OR of all four sub-conditions, time-based ones included) reports stale;
an entry `IsExpired` reports fresh is returned immediately with its access
time updated and the Expirable Index refreshed when the policy is not the
Never sentinel. -/
theorem fast_path_full_staleness {α : Type} (w : World α) (r : HRef) (key : String)
    (object : Container α) (a : Nat) (now : Int)
    (hcg : cacheGet w r key = some object) (ha : object.expiration = some a) :
    (IsExpired (w.heap a) object.accessed object.created now = true →
      ∀ (v : α) (e : ExpRef),
        (Get w r key (some (v, e)) now).1 = some v ∧
        (Get w r key (some (v, e)) now).2.2 = 1) ∧
    (IsExpired (w.heap a) object.accessed object.created now = false →
      ∀ g : Option (α × ExpRef),
        (Get w r key g now).1 = some object.data ∧
        (Get w r key g now).2.2 = 0 ∧
        cacheGet ((Get w r key g now).2.1) r key = some { object with accessed := now } ∧
        (a ≠ neverAddr →
          mapGet (((Get w r key g now).2.1).hoardAt r).expirationCache key =
            some ⟨now, object.created, some a⟩)) := by
  constructor
  · intro hstale v e
    have hee : entryExpired w object now = true := by
      unfold entryExpired
      rw [ha]
      exact hstale
    cases r with
    | shared =>
        have h2 : cacheGet (sharedRemove w key) HRef.shared key = none := by
          unfold cacheGet sharedRemove
          rw [removeOp_cache_self, mapGet_mapErase, if_pos rfl]
        simp [Get, hcg, hee, getSlow, h2, getMiss]
    | inst =>
        have h2 : cacheGet (sharedRemove w key) HRef.inst key = some object := by
          unfold cacheGet sharedRemove
          rw [removeOp_cache_other (by decide : HRef.inst ≠ HRef.shared)]
          exact hcg
        have hee2 : entryExpired (sharedRemove w key) object now = true := by
          rw [entryExpired_sharedRemove]
          exact hee
        simp [Get, hcg, hee, getSlow, h2, hee2, getMiss]
  · intro hfre g
    have hee : entryExpired w object now = false := by
      unfold entryExpired
      rw [ha]
      exact hfre
    rw [get_hit_eq w r key object g now hcg hee]
    refine ⟨rfl, rfl, ?_, ?_⟩
    · show mapGet ((getFastWorld w r key object now).hoardAt r).cache key = _
      rw [gfw_cache_self, mapGet_mapSet, if_pos rfl]
    · intro hnev
      rw [gfw_index_expirable w r key object now a ha hnev, mapGet_mapSet, if_pos rfl]

/-- C7 witness: both directions at a duration-5 entry (created 0): stale at
now = 10 (the producer runs and its value is returned), fresh at now = 3 (the
cached value is returned, the access time moves to 3, the index entry is
refreshed). -/
theorem fast_path_full_staleness_witness :
    (cacheGet (⟨⟨[("k", ⟨1, 0, 0, some 1⟩)], [("k", ⟨0, 0, some 1⟩)], ExpiresNever, true⟩,
        MakeH Int ExpiresNever,
        fun a => if a = 1 then ⟨0, 5, 0, 0, none⟩ else emptyExp⟩ : World Int)
      .shared "k" = some ⟨1, 0, 0, some 1⟩ ∧
     ((⟨1, 0, 0, some 1⟩ : Container Int).expiration = some 1)) ∧
    (IsExpired ((⟨⟨[("k", ⟨1, 0, 0, some 1⟩)], [("k", ⟨0, 0, some 1⟩)], ExpiresNever, true⟩,
        MakeH Int ExpiresNever,
        fun a => if a = 1 then ⟨0, 5, 0, 0, none⟩ else emptyExp⟩ : World Int).heap 1) 0 0 10
        = true ∧
     (Get (⟨⟨[("k", ⟨1, 0, 0, some 1⟩)], [("k", ⟨0, 0, some 1⟩)], ExpiresNever, true⟩,
        MakeH Int ExpiresNever,
        fun a => if a = 1 then ⟨0, 5, 0, 0, none⟩ else emptyExp⟩ : World Int)
        .shared "k" (some ((2 : Int), ExpiresNever)) 10).1 = some 2 ∧
     (Get (⟨⟨[("k", ⟨1, 0, 0, some 1⟩)], [("k", ⟨0, 0, some 1⟩)], ExpiresNever, true⟩,
        MakeH Int ExpiresNever,
        fun a => if a = 1 then ⟨0, 5, 0, 0, none⟩ else emptyExp⟩ : World Int)
        .shared "k" (some ((2 : Int), ExpiresNever)) 10).2.2 = 1) ∧
    (IsExpired ((⟨⟨[("k", ⟨1, 0, 0, some 1⟩)], [("k", ⟨0, 0, some 1⟩)], ExpiresNever, true⟩,
        MakeH Int ExpiresNever,
        fun a => if a = 1 then ⟨0, 5, 0, 0, none⟩ else emptyExp⟩ : World Int).heap 1) 0 0 3
        = false ∧
     (Get (⟨⟨[("k", ⟨1, 0, 0, some 1⟩)], [("k", ⟨0, 0, some 1⟩)], ExpiresNever, true⟩,
        MakeH Int ExpiresNever,
        fun a => if a = 1 then ⟨0, 5, 0, 0, none⟩ else emptyExp⟩ : World Int)
        .shared "k" none 3).1 = some 1 ∧
     (Get (⟨⟨[("k", ⟨1, 0, 0, some 1⟩)], [("k", ⟨0, 0, some 1⟩)], ExpiresNever, true⟩,
        MakeH Int ExpiresNever,
        fun a => if a = 1 then ⟨0, 5, 0, 0, none⟩ else emptyExp⟩ : World Int)
        .shared "k" none 3).2.2 = 0 ∧
     cacheGet ((Get (⟨⟨[("k", ⟨1, 0, 0, some 1⟩)], [("k", ⟨0, 0, some 1⟩)], ExpiresNever, true⟩,
        MakeH Int ExpiresNever,
        fun a => if a = 1 then ⟨0, 5, 0, 0, none⟩ else emptyExp⟩ : World Int)
        .shared "k" none 3).2.1) .shared "k" = some ⟨1, 3, 0, some 1⟩ ∧
     mapGet (((Get (⟨⟨[("k", ⟨1, 0, 0, some 1⟩)], [("k", ⟨0, 0, some 1⟩)], ExpiresNever, true⟩,
        MakeH Int ExpiresNever,
        fun a => if a = 1 then ⟨0, 5, 0, 0, none⟩ else emptyExp⟩ : World Int)
        .shared "k" none 3).2.1).hoardAt .shared).expirationCache "k" =
        some ⟨3, 0, some 1⟩) :=
  ⟨⟨by decide, by decide⟩,
    ⟨by decide,
      (fast_path_full_staleness _ .shared "k" ⟨1, 0, 0, some 1⟩ 1 10 (by decide) (by decide)).1
        (by decide) 2 ExpiresNever⟩,
    ⟨by decide,
      ((fast_path_full_staleness _ .shared "k" ⟨1, 0, 0, some 1⟩ 1 3 (by decide) (by decide)).2
        (by decide) none).1,
      ((fast_path_full_staleness _ .shared "k" ⟨1, 0, 0, some 1⟩ 1 3 (by decide) (by decide)).2
        (by decide) none).2.1,
      ((fast_path_full_staleness _ .shared "k" ⟨1, 0, 0, some 1⟩ 1 3 (by decide) (by decide)).2
        (by decide) none).2.2.1,
      ((fast_path_full_staleness _ .shared "k" ⟨1, 0, 0, some 1⟩ 1 3 (by decide) (by decide)).2
        (by decide) none).2.2.2 (by decide)⟩⟩

/-! ### C10: in-place mutation of a shared Expiration object -/

/-- Re-deriving the cached deadline overwrites the previous derivation: only
the `absolute` field depends on the call's timestamps. -/
theorem updateAbsoluteTime_overwrite (e : ExpData) (x y la cr : Int) :
    updateAbsoluteTime (updateAbsoluteTime e x y) la cr = updateAbsoluteTime e la cr := rfl

theorem setOp_heap_some {α : Type} (w : World α) (r : HRef) (key : String) (v : α)
    (a : Nat) (now : Int) (hnev : a ≠ neverAddr) :
    (SetOp w r key v (some (some a)) now).heap =
      heapUpdate w.heap a (updateAbsoluteTime (w.heap a) now now) := by
  simp only [SetOp]
  split
  next hg => rw [sfm_heap, ecs_heap_some rfl, cacheSet_heap]
  next hg =>
    refine absurd ⟨?_, ?_⟩ hg
    · simp
    · simp only [ExpiresNever, ne_eq, Option.some.injEq]
      exact hnev

theorem setOp_index_self {α : Type} (w : World α) (r : HRef) (key : String) (v : α)
    (a : Nat) (now : Int) (hnev : a ≠ neverAddr) :
    ((SetOp w r key v (some (some a)) now).hoardAt r).expirationCache =
      mapSet (w.hoardAt r).expirationCache key ⟨now, now, some a⟩ := by
  simp only [SetOp]
  split
  next hg =>
    rw [sfm_index, ecs_index_self rfl, cacheSet_index]
    rfl
  next hg =>
    refine absurd ⟨?_, ?_⟩ hg
    · simp
    · simp only [ExpiresNever, ne_eq, Option.some.injEq]
      exact hnev

theorem gfw_heap_expirable {α : Type} (w : World α) (r : HRef) (key : String)
    (object : Container α) (now : Int) (a : Nat) (ha : object.expiration = some a)
    (hnev : a ≠ neverAddr) :
    (getFastWorld w r key object now).heap =
      heapUpdate w.heap a (updateAbsoluteTime (w.heap a) now object.created) := by
  simp only [getFastWorld]
  split
  next hg =>
    rw [ecs_heap_some
          (show ({ object with accessed := now } : Container α).expiration = some a from ha),
        cacheSet_heap]
  next hg =>
    refine absurd ⟨?_, ?_⟩ hg
    · show object.expiration ≠ none
      rw [ha]
      simp
    · show object.expiration ≠ ExpiresNever
      rw [ha]
      simp only [ExpiresNever, ne_eq, Option.some.injEq]
      exact hnev

/-- C10: storing an entry under a non-Never, non-nil policy — via `Set` or the
fast-path write-back of a `Get` hit — mutates the pointed-to `Expiration`
object in place, overwriting its cached `absolute` deadline with the one
derived from that entry's timestamps; storing the same policy object under a
second key therefore leaves the deadline the sweeper consults for the first
key equal to the one derived from the most recently written entry's
timestamps, not its own. -/
theorem expiration_object_aliasing {α : Type} (w : World α) (r : HRef)
    (k₁ k₂ : String) (v₁ v₂ : α) (a : Nat) (n₁ n₂ : Int)
    (hnev : a ≠ neverAddr) (hkey : k₁ ≠ k₂) :
    ((SetOp w r k₁ v₁ (some (some a)) n₁).heap a = updateAbsoluteTime (w.heap a) n₁ n₁) ∧
    (mapGet ((SetOp (SetOp w r k₁ v₁ (some (some a)) n₁) r k₂ v₂ (some (some a)) n₂).hoardAt
          r).expirationCache k₁ = some ⟨n₁, n₁, some a⟩ ∧
     (SetOp (SetOp w r k₁ v₁ (some (some a)) n₁) r k₂ v₂ (some (some a)) n₂).heap a =
        updateAbsoluteTime (w.heap a) n₂ n₂ ∧
     (∀ t : Int,
        sweepCheck (SetOp (SetOp w r k₁ v₁ (some (some a)) n₁) r k₂ v₂ (some (some a)) n₂)
            r k₁ t =
          isExpiredAbsolute (updateAbsoluteTime (w.heap a) n₂ n₂) t)) ∧
    (∀ (object : Container α) (g : Option (α × ExpRef)) (now : Int),
      cacheGet w r k₁ = some object → object.expiration = some a →
      entryExpired w object now = false →
      (Get w r k₁ g now).2.1.heap a = updateAbsoluteTime (w.heap a) now object.created) := by
  refine ⟨?_, ⟨?_, ?_, ?_⟩, ?_⟩
  · rw [setOp_heap_some w r k₁ v₁ a n₁ hnev, heapUpdate_same]
  · rw [setOp_index_self (SetOp w r k₁ v₁ (some (some a)) n₁) r k₂ v₂ a n₂ hnev,
        mapGet_mapSet, if_neg hkey,
        setOp_index_self w r k₁ v₁ a n₁ hnev, mapGet_mapSet, if_pos rfl]
  · rw [setOp_heap_some (SetOp w r k₁ v₁ (some (some a)) n₁) r k₂ v₂ a n₂ hnev,
        heapUpdate_same, setOp_heap_some w r k₁ v₁ a n₁ hnev, heapUpdate_same,
        updateAbsoluteTime_overwrite]
  · intro t
    unfold sweepCheck
    rw [setOp_index_self (SetOp w r k₁ v₁ (some (some a)) n₁) r k₂ v₂ a n₂ hnev,
        mapGet_mapSet, if_neg hkey,
        setOp_index_self w r k₁ v₁ a n₁ hnev, mapGet_mapSet, if_pos rfl]
    show isExpiredAbsolute
        ((SetOp (SetOp w r k₁ v₁ (some (some a)) n₁) r k₂ v₂ (some (some a)) n₂).heap a) t = _
    rw [setOp_heap_some (SetOp w r k₁ v₁ (some (some a)) n₁) r k₂ v₂ a n₂ hnev,
        heapUpdate_same, setOp_heap_some w r k₁ v₁ a n₁ hnev, heapUpdate_same,
        updateAbsoluteTime_overwrite]
  · intro object g now hcg ha hee
    rw [get_hit_eq w r k₁ object g now hcg hee]
    show (getFastWorld w r k₁ object now).heap a = _
    rw [gfw_heap_expirable w r k₁ object now a ha hnev, heapUpdate_same]

/-- C10 witness: the policy object at address 1 stored under "x" at time 0
and under "y" at time 2: the deadline consulted for "x" derives from time 2;
the fast-path write-back for "x" at time 3 mutates it as well. -/
theorem expiration_object_aliasing_witness :
    ((1 : Nat) ≠ neverAddr ∧ "x" ≠ "y") ∧
    (SetOp (⟨MakeH Int ExpiresNever,
        ⟨[("x", ⟨9, 0, 0, some 1⟩)], [("x", ⟨0, 0, some 1⟩)], ExpiresNever, true⟩,
        fun a => if a = 1 then ⟨0, 100, 0, 0, none⟩ else emptyExp⟩ : World Int)
        .inst "x" 4 (some (some 1)) 0).heap 1
      = updateAbsoluteTime ((⟨MakeH Int ExpiresNever,
        ⟨[("x", ⟨9, 0, 0, some 1⟩)], [("x", ⟨0, 0, some 1⟩)], ExpiresNever, true⟩,
        fun a => if a = 1 then ⟨0, 100, 0, 0, none⟩ else emptyExp⟩ : World Int).heap 1) 0 0 ∧
    sweepCheck (SetOp (SetOp (⟨MakeH Int ExpiresNever,
        ⟨[("x", ⟨9, 0, 0, some 1⟩)], [("x", ⟨0, 0, some 1⟩)], ExpiresNever, true⟩,
        fun a => if a = 1 then ⟨0, 100, 0, 0, none⟩ else emptyExp⟩ : World Int)
        .inst "x" 4 (some (some 1)) 0) .inst "y" 5 (some (some 1)) 2) .inst "x" 7
      = isExpiredAbsolute (updateAbsoluteTime ((⟨MakeH Int ExpiresNever,
        ⟨[("x", ⟨9, 0, 0, some 1⟩)], [("x", ⟨0, 0, some 1⟩)], ExpiresNever, true⟩,
        fun a => if a = 1 then ⟨0, 100, 0, 0, none⟩ else emptyExp⟩ : World Int).heap 1) 2 2) 7 ∧
    (Get (⟨MakeH Int ExpiresNever,
        ⟨[("x", ⟨9, 0, 0, some 1⟩)], [("x", ⟨0, 0, some 1⟩)], ExpiresNever, true⟩,
        fun a => if a = 1 then ⟨0, 100, 0, 0, none⟩ else emptyExp⟩ : World Int)
        .inst "x" none 3).2.1.heap 1
      = updateAbsoluteTime ((⟨MakeH Int ExpiresNever,
        ⟨[("x", ⟨9, 0, 0, some 1⟩)], [("x", ⟨0, 0, some 1⟩)], ExpiresNever, true⟩,
        fun a => if a = 1 then ⟨0, 100, 0, 0, none⟩ else emptyExp⟩ : World Int).heap 1) 3 0 :=
  ⟨⟨by decide, by decide⟩,
    (expiration_object_aliasing _ .inst "x" "y" 4 5 1 0 2 (by decide) (by decide)).1,
    (expiration_object_aliasing _ .inst "x" "y" 4 5 1 0 2 (by decide) (by decide)).2.1.2.2 7,
    (expiration_object_aliasing _ .inst "x" "y" 4 5 1 0 2 (by decide) (by decide)).2.2
      ⟨9, 0, 0, some 1⟩ none 3 (by decide) (by decide) (by decide)⟩

/-- C9 witness: the amended equivalence instantiated at the idle-only policy
`idle = 5`, `lastAccess = 0`, `created = 0`, `now = 7`. -/
theorem absolute_matches_full_eval_witness :
    (((⟨5, 0, 0, 0, none⟩ : ExpData).idle ≠ 0 → (0 : Int) + (⟨5, 0, 0, 0, none⟩ : ExpData).idle ≠ 0) ∧
     ((⟨5, 0, 0, 0, none⟩ : ExpData).duration ≠ 0 → (0 : Int) + (⟨5, 0, 0, 0, none⟩ : ExpData).duration ≠ 0)) ∧
    isExpiredAbsolute (updateAbsoluteTime ⟨5, 0, 0, 0, none⟩ 0 0) 7 =
      IsExpired ⟨5, 0, 0, 0, none⟩ 0 0 7 :=
  ⟨⟨by decide, by decide⟩,
    absolute_matches_full_eval ⟨5, 0, 0, 0, none⟩ 0 0 7 (by decide) (by decide)⟩

end Hoard
